import Mathlib

/-!
Shallow embedding of the security-policy detection core (decision engine,
package checker, registry client, threat loader, artifact extraction,
URL normalization, trusted domains) together with theorems settling the
frozen specification claims.  Machine-level details that the claims do not
depend on (network transport, the file system, YAML/JSON parsing, dates)
are made explicit oracle parameters; everything else is translated
directly from the TypeScript source.
-/

set_option maxRecDepth 8000

namespace Sage

/-- Decision values of a verdict (source union type "allow" | "ask" | "deny"). -/
inductive Decision
  | allow
  | ask
  | deny
  deriving DecidableEq, Repr

/-- User-facing verdict severity (source union "critical" | "warning" | "info"). -/
inductive VerdictSeverity
  | critical
  | warning
  | info
  deriving DecidableEq, Repr

/-- A threat rule record as used by the engine and the loader.  The
TypeScript type annotates `severity` and `action` with string unions, but
nothing enforces them at runtime, so they are plain strings here. -/
structure Threat where
  id : String
  category : String
  severity : String
  confidence : Rat
  action : String
  pattern : String
  matchOn : List String
  title : String
  expiresAt : Option Int
  revoked : Bool
  deriving DecidableEq, Repr

/-- One heuristic rule hit: the rule plus the artifact value it matched. -/
structure HeuristicMatch where
  threat : Threat
  artifact : String
  deriving DecidableEq, Repr

/-- One structured finding of the URL reputation service. -/
structure UrlFinding where
  severityName : String
  typeName : String
  deriving DecidableEq, Repr

/-- Result of the URL reputation check for one URL. -/
structure UrlCheckResult where
  url : String
  isMalicious : Bool
  findings : List UrlFinding
  flags : List String
  deriving DecidableEq, Repr

/-- Package-check verdict (source union type of five strings). -/
inductive PkgVerdict
  | clean
  | notFound
  | malicious
  | suspiciousAge
  | unknown
  deriving DecidableEq, Repr

/-- Result of the supply-chain check for one package. -/
structure PackageCheckResult where
  packageName : String
  registry : String
  verdict : PkgVerdict
  confidence : Rat
  details : String
  fileCheckSeverity : Option String := none
  ageDays : Option Rat := none
  deriving DecidableEq, Repr

/-- Bundle of signal sources handed to the decision engine. -/
structure SignalSources where
  heuristicMatches : List HeuristicMatch
  urlCheckResults : List UrlCheckResult
  packageCheckResults : Option (List PackageCheckResult) := none
  deriving Repr

/-- Final verdict produced by the decision engine. -/
structure Verdict where
  decision : Decision
  category : String
  confidence : Rat
  severity : VerdictSeverity
  source : String
  artifacts : List String
  matchedThreatId : Option String
  reasons : List String
  deriving DecidableEq, Repr

/-- Internal merged signal of the decision engine. -/
structure Signal where
  decision : Decision
  category : String
  confidence : Rat
  severity : VerdictSeverity
  source : String
  threatId : Option String
  reason : String
  artifact : String
  deriving DecidableEq, Repr

/-- Default confidence threshold. -/
def CONFIDENCE_THRESHOLD : Rat := 0.85

/-- Own properties of the `SENSITIVITY_THRESHOLDS` object literal: preset
name to confidence threshold (`none` for a key that is not an own property;
the prototype-aware read is `jsGetD` over this map). -/
def SENSITIVITY_THRESHOLDS (s : String) : Option Rat :=
  if s = "paranoid" then some 0.7
  else if s = "balanced" then some 0.85
  else if s = "relaxed" then some 0.95
  else none

/-- Own properties of the `SEVERITY_MAP` object literal: 4-level threat def
severity to 3-level user-facing verdict severity (`none` for a key that is
not an own property). -/
def SEVERITY_MAP (s : String) : Option VerdictSeverity :=
  if s = "critical" then some .critical
  else if s = "high" then some .warning
  else if s = "medium" then some .warning
  else if s = "low" then some .info
  else none

/-- Own properties of the `ACTION_MAP` object literal: threat def action to
verdict decision (`none` for a key that is not an own property). -/
def ACTION_MAP (s : String) : Option Decision :=
  if s = "block" then some .deny
  else if s = "require_approval" then some .ask
  else if s = "log" then some .allow
  else none

/-- Decision priority for merge precedence: deny > ask > allow. -/
def DECISION_PRIORITY : Decision → Nat
  | .allow => 0
  | .ask => 1
  | .deny => 2

/-- JavaScript `Array.prototype.join(", ")`. -/
def joinComma : List String → String
  | [] => ""
  | [x] => x
  | x :: xs => x ++ ", " ++ joinComma xs

/-- First-seen-order de-duplication, as produced by collecting values into a
JavaScript `Map`/`Set` (insertion order, first occurrence wins). -/
def dedupFirstSeen (l : List String) : List String :=
  l.foldl (fun acc x => if x ∈ acc then acc else acc ++ [x]) []

/-- Property names inherited from `Object.prototype`: a property read on a
plain object literal with one of these keys returns the inherited member (a
function, or the prototype object itself for `__proto__`), which is not
nullish, so a `?? default` after such a read does not apply. -/
def OBJECT_PROTO_KEYS : List String :=
  ["constructor", "hasOwnProperty", "isPrototypeOf", "propertyIsEnumerable",
   "toLocaleString", "toString", "valueOf", "__proto__",
   "__defineGetter__", "__defineSetter__", "__lookupGetter__",
   "__lookupSetter__"]

/-- Result of the JavaScript read `OBJ[k] ?? d` on an object literal: either
a proper value of the record type (an own property, or the default after an
`undefined` read), or an inherited `Object.prototype` member, tagged with the
key that reached it. -/
inductive JsVal (α : Type) where
  | val (a : α)
  | protoMember (name : String)
  deriving DecidableEq, Repr

/-- The JavaScript read `OBJ[k] ?? d` on an object literal whose own
properties are `own`: an own property wins; otherwise a key naming an
`Object.prototype` member yields that inherited member (non-nullish, so the
`??` default does not fire); otherwise the read is `undefined` and the
default applies. -/
def jsGetD {α : Type} (own : String → Option α) (k : String) (d : α) :
    JsVal α :=
  match own k with
  | some v => JsVal.val v
  | none => if k ∈ OBJECT_PROTO_KEYS then JsVal.protoMember k else JsVal.val d

/-- JavaScript `m < t` where `t` came from an object read: when `t` is an
inherited `Object.prototype` member (a function, or the prototype object),
`ToNumber(t)` is `NaN` and every comparison against `NaN` is false. -/
def jsLtNum (m : Rat) : JsVal Rat → Bool
  | JsVal.val q => decide (m < q)
  | JsVal.protoMember _ => false

namespace DecisionEngine

/-- Signal built from one heuristic match (`collectSignals`, heuristic
loop), for action and severity values that are not `Object.prototype` member
names; `heuristicSignalJs` is the prototype-aware construction. -/
def heuristicSignal (m : HeuristicMatch) : Signal :=
  { decision := (ACTION_MAP m.threat.action).getD .ask
    category := m.threat.category
    confidence := m.threat.confidence
    severity := (SEVERITY_MAP m.threat.severity).getD .warning
    source := "heuristic"
    threatId := some m.threat.id
    reason := m.threat.title
    artifact := m.artifact }

/-- Signals built from one URL check result (`collectSignals`, URL loop):
one deny signal when malicious, plus one ask signal per informational flag. -/
def urlSignals (r : UrlCheckResult) : List Signal :=
  (if r.isMalicious then
    [{ decision := .deny
       category := "network_egress"
       confidence := 1.0
       severity := .critical
       source := "url_check"
       threatId := none
       reason := "Malicious URL (" ++
         joinComma (r.findings.map (fun f => f.severityName ++ "/" ++ f.typeName)) ++ ")"
       artifact := r.url }]
  else []) ++
  r.flags.map (fun flag =>
    { decision := .ask
      category := "network_egress"
      confidence := 0.75
      severity := .warning
      source := "url_check"
      threatId := none
      reason := "Suspicious URL: " ++ flag
      artifact := r.url })

/-- Signal built from one non-clean package check result. -/
def packageVerdictToSignal (pkg : PackageCheckResult) : Option Signal :=
  match pkg.verdict with
  | .notFound =>
      some { decision := .deny, category := "supply_chain", confidence := 0.95
             severity := .critical, source := "package_check", threatId := none
             reason := pkg.details, artifact := pkg.packageName }
  | .malicious =>
      some { decision := .deny, category := "supply_chain", confidence := 1.0
             severity := .critical, source := "package_check", threatId := none
             reason := pkg.details, artifact := pkg.packageName }
  | .suspiciousAge =>
      some { decision := .ask, category := "supply_chain", confidence := 0.75
             severity := .warning, source := "package_check", threatId := none
             reason := pkg.details, artifact := pkg.packageName }
  | .unknown =>
      some { decision := .ask, category := "supply_chain", confidence := 0.6
             severity := .warning, source := "package_check", threatId := none
             reason := pkg.details, artifact := pkg.packageName }
  | .clean => none

/-- Collect all signals from the three sources, in source order. -/
def collectSignals (heuristicMatches : List HeuristicMatch)
    (urlCheckResults : List UrlCheckResult)
    (packageCheckResults : Option (List PackageCheckResult)) : List Signal :=
  heuristicMatches.map heuristicSignal ++
  urlCheckResults.flatMap urlSignals ++
  (match packageCheckResults with
   | none => []
   | some pkgs =>
       pkgs.filterMap (fun pkg =>
         if pkg.verdict = .clean then none else packageVerdictToSignal pkg))

/-- Insert a signal into a list already sorted by strictly descending
decision priority, after every element of priority at least its own.
Models one step of the stable ECMAScript `Array.prototype.sort` with
comparator `(a, b) => priority(b) - priority(a)`. -/
def insertSignal (x : Signal) : List Signal → List Signal
  | [] => [x]
  | y :: ys =>
      if DECISION_PRIORITY y.decision < DECISION_PRIORITY x.decision then
        x :: y :: ys
      else
        y :: insertSignal x ys

/-- Stable sort by descending decision priority: the unique reordering that
the stable ECMAScript sort with comparator `(a, b) => priority(b) - priority(a)`
produces. -/
def sortSignals (l : List Signal) : List Signal :=
  l.foldl (fun acc x => insertSignal x acc) []

/-- Active confidence threshold for a sensitivity preset
(`SENSITIVITY_THRESHOLDS[sensitivity] ?? CONFIDENCE_THRESHOLD`), for preset
names that are not `Object.prototype` member names; `thresholdJs` is the
prototype-aware lookup. -/
def threshold (sensitivity : String) : Rat :=
  (SENSITIVITY_THRESHOLDS sensitivity).getD CONFIDENCE_THRESHOLD

/-- The all-clear verdict returned when no signals exist. -/
def allowVerdict : Verdict :=
  { decision := .allow, category := "none", confidence := 1.0
    severity := .info, source := "none", artifacts := []
    matchedThreatId := none, reasons := [] }

/-- Maximum confidence across a non-empty signal list
(`Math.max(...signals.map((s) => s.confidence))`). -/
def maxConf (s : Signal) (rest : List Signal) : Rat :=
  rest.foldl (fun m x => max m x.confidence) s.confidence

/-- Build the final verdict from the priority-sorted signal list. -/
def verdictOfSorted (sensitivity : String) : List Signal → Verdict
  | [] => allowVerdict
  | top :: rest =>
      let m := maxConf top rest
      { decision :=
          if top.decision = .deny ∧ m < threshold sensitivity then .ask
          else top.decision
        category := top.category
        confidence := m
        severity := top.severity
        source := top.source
        artifacts := dedupFirstSeen ((top :: rest).map (fun s => s.artifact))
        matchedThreatId := top.threatId
        reasons := dedupFirstSeen ((top :: rest).map (fun s => s.reason))
  }

/-- The decision engine: collect signals, sort by priority, merge. -/
def decide (sensitivity : String) (src : SignalSources) : Verdict :=
  verdictOfSorted sensitivity
    (sortSignals
      (collectSignals src.heuristicMatches src.urlCheckResults src.packageCheckResults))

/-- Of two signals, the one the descending-priority stable sort ranks first:
the later one only when its priority is strictly greater. -/
def pickMax (a b : Signal) : Signal :=
  if DECISION_PRIORITY a.decision < DECISION_PRIORITY b.decision then b else a

/-- The earliest signal of maximal decision priority in `s :: rest`. -/
def topOf (s : Signal) (rest : List Signal) : Signal :=
  rest.foldl pickMax s

/-- Active confidence threshold under the prototype-aware object read
(`SENSITIVITY_THRESHOLDS[sensitivity] ?? CONFIDENCE_THRESHOLD`): a preset
name that is an `Object.prototype` member name yields the inherited member
rather than the balanced default. -/
def thresholdJs (sensitivity : String) : JsVal Rat :=
  jsGetD SENSITIVITY_THRESHOLDS sensitivity CONFIDENCE_THRESHOLD

/-- Verdict construction with the prototype-aware threshold semantics: the
softening test `maxConfidence < this.threshold` is false whenever the
threshold is an inherited prototype member (`NaN` comparison). -/
def verdictOfSortedJs (sensitivity : String) : List Signal → Verdict
  | [] => allowVerdict
  | top :: rest =>
      let m := maxConf top rest
      { decision :=
          if top.decision = Decision.deny ∧
              jsLtNum m (thresholdJs sensitivity) = true then Decision.ask
          else top.decision
        category := top.category
        confidence := m
        severity := top.severity
        source := top.source
        artifacts := dedupFirstSeen ((top :: rest).map (fun s => s.artifact))
        matchedThreatId := top.threatId
        reasons := dedupFirstSeen ((top :: rest).map (fun s => s.reason)) }

/-- The decision engine with the prototype-aware threshold lookup. -/
def decideJs (sensitivity : String) (src : SignalSources) : Verdict :=
  verdictOfSortedJs sensitivity
    (sortSignals
      (collectSignals src.heuristicMatches src.urlCheckResults
        src.packageCheckResults))

/-- Signal whose decision and severity carry the raw result of the object
reads, so a rule action or severity naming an `Object.prototype` member is
kept as the inherited member instead of being replaced by the `??` default. -/
structure JsSignal where
  decision : JsVal Decision
  category : String
  confidence : Rat
  severity : JsVal VerdictSeverity
  source : String
  threatId : Option String
  reason : String
  artifact : String
  deriving DecidableEq, Repr

/-- Prototype-aware signal for one heuristic match
(`ACTION_MAP[action] ?? "ask"` and `SEVERITY_MAP[severity] ?? "warning"`). -/
def heuristicSignalJs (m : HeuristicMatch) : JsSignal :=
  { decision := jsGetD ACTION_MAP m.threat.action Decision.ask
    category := m.threat.category
    confidence := m.threat.confidence
    severity := jsGetD SEVERITY_MAP m.threat.severity VerdictSeverity.warning
    source := "heuristic"
    threatId := some m.threat.id
    reason := m.threat.title
    artifact := m.artifact }

/-- Embed a signal whose decision and severity are literal strings in the
source: the url and package loops push only `"deny"`/`"ask"` decisions and
`"critical"`/`"warning"` severities, never object reads. -/
def liftSignal (s : Signal) : JsSignal :=
  { decision := JsVal.val s.decision
    category := s.category
    confidence := s.confidence
    severity := JsVal.val s.severity
    source := s.source
    threatId := s.threatId
    reason := s.reason
    artifact := s.artifact }

/-- Prototype-aware `collectSignals`: only the heuristic loop performs
object-literal reads, so the url and package signals embed by wrapping their
literal decisions and severities. -/
def collectSignalsJs (heuristicMatches : List HeuristicMatch)
    (urlCheckResults : List UrlCheckResult)
    (packageCheckResults : Option (List PackageCheckResult)) : List JsSignal :=
  heuristicMatches.map heuristicSignalJs ++
  (collectSignals [] urlCheckResults packageCheckResults).map liftSignal

/-- Priority of a merged decision (`DECISION_PRIORITY[decision] ?? 0`): an
inherited prototype member used as a property key is converted by `ToString`,
which for these members is a function source string or `"[object Object]"`,
never an own key of `DECISION_PRIORITY` nor an `Object.prototype` member
name, so that read is `undefined` and the `?? 0` default applies. -/
def DECISION_PRIORITY_JS : JsVal Decision → Nat
  | JsVal.val d => DECISION_PRIORITY d
  | JsVal.protoMember _ => 0

end DecisionEngine

/-- A generic threat-rule value used by concrete claim instances. -/
def mkRuleThreat (action : String) (severity : String) (conf : Rat) : Threat :=
  { id := "RULE-1", category := "tool", severity := severity, confidence := conf
    action := action, pattern := "p", matchOn := ["command"], title := "rule title"
    expiresAt := none, revoked := false }

/-- A heuristic match wrapping `mkRuleThreat`. -/
def mkMatch (action severity : String) (conf : Rat) (art : String) : HeuristicMatch :=
  { threat := mkRuleThreat action severity conf, artifact := art }

/-- Signal sources holding a single heuristic match of the given action,
severity and confidence. -/
def oneMatchSources (action : String) (severity : String) (conf : Rat) :
    SignalSources :=
  { heuristicMatches := [mkMatch action severity conf "cmd"]
    urlCheckResults := []
    packageCheckResults := none }

/-- Signal sources holding a block-action match at confidence 0.95 and a
require-approval match at confidence 0.99. -/
def denyAskSources : SignalSources :=
  { heuristicMatches :=
      [mkMatch "block" "high" 0.95 "cmd1", mkMatch "require_approval" "high" 0.99 "cmd2"]
    urlCheckResults := []
    packageCheckResults := none }

/-- JavaScript string truthiness for an optional string field
(`undefined` and the empty string are falsy). -/
def jsTruthy (v : Option String) : Bool :=
  match v with
  | none => false
  | some s => s ≠ ""

/-- JavaScript `startsWith`, phrased over the character list so that it
evaluates by kernel reduction. -/
def jsStartsWith (s pre : String) : Bool :=
  pre.data.isPrefixOf s.data

/-- JavaScript `endsWith`, phrased over the character list. -/
def jsEndsWith (s suf : String) : Bool :=
  suf.data.isSuffixOf s.data

/-- JavaScript `toUpperCase` (ASCII range, which is all the source compares). -/
def toUpper (s : String) : String :=
  ⟨s.data.map Char.toUpper⟩

/-- JavaScript `toLowerCase` (ASCII range, which is all the source compares). -/
def toLower (s : String) : String :=
  ⟨s.data.map Char.toLower⟩

/-- Registry metadata for one package (clients/package-registry). -/
structure PackageMetadata where
  name : String
  resolvedVersion : String
  latestHash : String
  hashAlgorithm : String
  firstReleaseDate : Option Int
  requestedVersionFound : Bool
  deriving DecidableEq, Repr

namespace RegistryClient

/-- Leading character class `[a-z0-9-~]` of the npm name grammar. -/
def npmLead (c : Char) : Bool :=
  c.isLower || c.isDigit || c = '-' || c = '~'

/-- Body character class `[a-z0-9-._~]` of the npm name grammar. -/
def npmBody (c : Char) : Bool :=
  npmLead c || c = '.' || c = '_'

/-- One npm name part: `[a-z0-9-~][a-z0-9-._~]*`. -/
def npmPartOk : List Char → Bool
  | [] => false
  | c :: rest => npmLead c && rest.all npmBody

/-- The npm package-name grammar
`^(@[a-z0-9-~][a-z0-9-._~]*\/)?[a-z0-9-~][a-z0-9-._~]*$` (SSRF guard). -/
def npmNameOk (name : String) : Bool :=
  match name.data with
  | '@' :: rest =>
      match rest.dropWhile (fun c => c ≠ '/') with
      | '/' :: main => npmPartOk (rest.takeWhile (fun c => c ≠ '/')) && npmPartOk main
      | _ => false
  | l => npmPartOk l

/-- Alphanumeric class `[a-zA-Z0-9]` of the PyPI name grammar. -/
def pypiAlnum (c : Char) : Bool :=
  c.isAlpha || c.isDigit

/-- Body class `[a-zA-Z0-9._-]` of the PyPI name grammar. -/
def pypiBody (c : Char) : Bool :=
  pypiAlnum c || c = '.' || c = '_' || c = '-'

/-- The PyPI package-name grammar `^[a-zA-Z0-9]([a-zA-Z0-9._-]*[a-zA-Z0-9])?$`. -/
def pypiNameOk (name : String) : Bool :=
  match name.data with
  | [] => false
  | c :: rest =>
      pypiAlnum c &&
      (match rest.getLast? with
       | none => true
       | some d => rest.all pypiBody && pypiAlnum d)

/-- Outcome of one `fetch` against a registry.  `throwErr` covers transport
errors and a response whose body read throws (both propagate out of the
client); `resp` carries the HTTP status and, for the success path, the
metadata that `parseNpmResponse`/`parsePypiResponse` extracts from the
response body (the JSON shape itself is outside the modelled boundary). -/
inductive FetchOutcome
  | throwErr
  | resp (status : Nat) (parsed : Option PackageMetadata)
  deriving DecidableEq, Repr

/-- npm metadata lookup: grammar check, then fetch; 404 means null
("does not exist"), any other non-2xx status or a transport error is
rethrown.  The second component counts network calls made. -/
def getNpmMetadata (name : String) (fetch : FetchOutcome) :
    Except Unit (Option PackageMetadata) × Nat :=
  if !npmNameOk name then (.ok none, 0)
  else
    match fetch with
    | .throwErr => (.error (), 1)
    | .resp status parsed =>
        if status = 404 then (.ok none, 1)
        else if ¬(200 ≤ status ∧ status ≤ 299) then (.error (), 1)
        else (.ok parsed, 1)

/-- PyPI metadata lookup; same status handling as npm. -/
def getPypiMetadata (name : String) (fetch : FetchOutcome) :
    Except Unit (Option PackageMetadata) × Nat :=
  if !pypiNameOk name then (.ok none, 0)
  else
    match fetch with
    | .throwErr => (.error (), 1)
    | .resp status parsed =>
        if status = 404 then (.ok none, 1)
        else if ¬(200 ≤ status ∧ status ≤ 299) then (.error (), 1)
        else (.ok parsed, 1)

/-- Dispatch on the registry name. -/
def getPackageMetadata (name registry : String) (fetch : FetchOutcome) :
    Except Unit (Option PackageMetadata) × Nat :=
  if registry = "npm" then getNpmMetadata name fetch
  else getPypiMetadata name fetch

end RegistryClient

/-- One file-reputation response. -/
structure FileCheckResult where
  severity : String
  detectionNames : List String
  deriving DecidableEq, Repr

namespace PackageChecker

/-- Outcome of the registry lookup as seen by the package checker:
a thrown error, or the `PackageMetadata | null` return value. -/
inductive RegistryOutcome
  | throwErr
  | ret (m : Option PackageMetadata)
  deriving DecidableEq, Repr

/-- Outcome of the file-reputation lookup: a thrown error, or the
`FileCheckResult | null` return value. -/
inductive FileCheckOutcome
  | throwErr
  | ret (r : Option FileCheckResult)
  deriving DecidableEq, Repr

/-- One package to check. -/
structure PackageCheckInput where
  name : String
  registry : String
  version : Option String
  deriving DecidableEq, Repr

/-- Suspicious-age window in days. -/
def SUSPICIOUS_AGE_DAYS : Rat := 7

/-- Steps 3-4 of `checkSinglePackage`: age check, then clean. `now` and the
first-release date are epoch milliseconds; the age is an exact rational where
the source divides 64-bit floats. -/
def ageAndClean (pkg : PackageCheckInput) (metadata : PackageMetadata)
    (now : Int) : PackageCheckResult :=
  let ageDays : Option Rat :=
    metadata.firstReleaseDate.map (fun t => ((now - t : Int) : Rat) / 86400000)
  match ageDays with
  | some a =>
      if a < SUSPICIOUS_AGE_DAYS then
        { packageName := pkg.name, registry := pkg.registry
          verdict := .suspiciousAge, confidence := 0.75
          details := "Package \x27" ++ pkg.name ++ "\x27 first published " ++
            toString a.floor ++ " days ago (suspicious age)"
          ageDays := some a }
      else
        { packageName := pkg.name, registry := pkg.registry
          verdict := .clean, confidence := 1.0
          details := "Package \x27" ++ pkg.name ++ "\x27 verified on " ++ pkg.registry
          ageDays := some a }
  | none =>
      { packageName := pkg.name, registry := pkg.registry
        verdict := .clean, confidence := 1.0
        details := "Package \x27" ++ pkg.name ++ "\x27 verified on " ++ pkg.registry
        ageDays := none }

/-- `checkSinglePackage`: registry lookup, requested-version check, file
reputation, age check, clean — with the registry and file-check network
results supplied as oracles.  The second component counts network calls. -/
def checkSinglePackage (fileCheckEnabled : Bool) (pkg : PackageCheckInput)
    (reg : RegistryOutcome) (fc : FileCheckOutcome) (now : Int) :
    PackageCheckResult × Nat :=
  match reg with
  | .throwErr =>
      ({ packageName := pkg.name, registry := pkg.registry
         verdict := .unknown, confidence := 0.6
         details := "Package check for \x27" ++ pkg.name ++
           "\x27 timed out (verify manually)" }, 1)
  | .ret none =>
      ({ packageName := pkg.name, registry := pkg.registry
         verdict := .notFound, confidence := 0.95
         details := "Package \x27" ++ pkg.name ++ "\x27 not found on " ++
           pkg.registry ++ " (non-existent or misspelled)" }, 1)
  | .ret (some metadata) =>
      if ¬metadata.requestedVersionFound ∧ jsTruthy pkg.version then
        ({ packageName := pkg.name, registry := pkg.registry
           verdict := .notFound, confidence := 0.9
           details := "Package \x27" ++ pkg.name ++ "@" ++ pkg.version.getD "" ++
             "\x27 version not found on " ++ pkg.registry ++
             " (hallucinated or unpublished)" }, 1)
      else if metadata.latestHash ≠ "" ∧ fileCheckEnabled ∧
          metadata.hashAlgorithm = "sha256" then
        match fc with
        | .ret (some fileResult) =>
            let sev := toUpper fileResult.severity
            if sev = "SEVERITY_MALWARE" then
              ({ packageName := pkg.name, registry := pkg.registry
                 verdict := .malicious, confidence := 1.0
                 details := "Malicious package \x27" ++ pkg.name ++ "\x27 (" ++
                   (if fileResult.detectionNames ≠ [] then
                     joinComma fileResult.detectionNames
                    else sev) ++ ")"
                 fileCheckSeverity := some sev }, 2)
            else (ageAndClean pkg metadata now, 2)
        | .ret none => (ageAndClean pkg metadata now, 2)
        | .throwErr => (ageAndClean pkg metadata now, 2)
      else (ageAndClean pkg metadata now, 1)

/-- The clean result recorded for a scoped (`@scope/pkg`) package, which is
skipped without any network traffic. -/
def scopedCleanResult (pkg : PackageCheckInput) : PackageCheckResult :=
  { packageName := pkg.name, registry := pkg.registry
    verdict := .clean, confidence := 1.0
    details := "Scoped package — skipped (v1)" }

/-- `checkPackages`: scoped packages are answered clean with no network
call; the rest go through `checkSinglePackage` (the source limits
concurrency to 10 and collects results in completion order; completion
order is modelled as input order, which no claim depends on). -/
def checkPackages (fileCheckEnabled : Bool)
    (packages : List (PackageCheckInput × RegistryOutcome × FileCheckOutcome))
    (now : Int) : List PackageCheckResult × Nat :=
  let scopedPkgs := packages.filter (fun p => jsStartsWith p.1.name "@")
  let toCheck := packages.filter (fun p => !jsStartsWith p.1.name "@")
  let checked := toCheck.map
    (fun p => checkSinglePackage fileCheckEnabled p.1 p.2.1 p.2.2 now)
  (scopedPkgs.map (fun p => scopedCleanResult p.1) ++ checked.map Prod.fst,
    (checked.map Prod.snd).sum)

/-- Whether the file-reputation branch of `checkSinglePackage` fires with a
malware verdict (used to phrase the age-check preconditions). -/
def malwareBranchFires (fileCheckEnabled : Bool) (m : PackageMetadata)
    (fc : FileCheckOutcome) : Bool :=
  (m.latestHash ≠ "" ∧ fileCheckEnabled ∧ m.hashAlgorithm = "sha256") &&
  (match fc with
   | .ret (some fr) => toUpper fr.severity = "SEVERITY_MALWARE"
   | _ => false)

/-- Concrete registry metadata for a malicious-package scenario. -/
def malMetadata : PackageMetadata :=
  { name := "mal", resolvedVersion := "1.0", latestHash := "abc"
    hashAlgorithm := "sha256", firstReleaseDate := none
    requestedVersionFound := true }

/-- Concrete file-reputation result flagging malware (lowercase severity,
upper-cased by the checker before comparison). -/
def malFileResult : FileCheckResult :=
  { severity := "severity_malware", detectionNames := ["Trojan.GenericKD"] }

/-- Concrete registry metadata for a two-day-old package with no usable hash. -/
def youngMetadata : PackageMetadata :=
  { name := "newpkg", resolvedVersion := "1.0", latestHash := ""
    hashAlgorithm := "sha256", firstReleaseDate := some 0
    requestedVersionFound := true }

end PackageChecker

namespace ThreatLoader

/-- The required fields of a threat rule record. -/
def REQUIRED_FIELDS : List String :=
  ["id", "category", "severity", "confidence", "action", "pattern",
   "match_on", "title"]

/-- The raw `match_on` value: a single string or a list. -/
inductive RawMatchOn
  | single (s : String)
  | array (l : List String)
  deriving DecidableEq, Repr

/-- One parsed YAML record of a rule-corpus file.  `keys` is
`Object.keys(record)`; `revokedTrue` is the strict `record.revoked === true`
test; `expiresTime` is the result of `parseExpiresAt` (epoch milliseconds,
or none when `expires_at` is absent or does not parse to a valid date);
`patternValid` is whether `new RegExp(pattern, flags)` succeeds;
`confidence` abstracts `Number(record.confidence)`. -/
structure ThreatRecord where
  keys : List String
  revokedTrue : Bool
  expiresTime : Option Int
  patternValid : Bool
  caseInsensitive : Bool
  id : String
  category : String
  severity : String
  confidence : Rat
  action : String
  pattern : String
  matchOn : RawMatchOn
  title : String
  deriving DecidableEq, Repr

/-- One entry of a rule-corpus file's top-level list. -/
inductive YamlEntry
  | nonObject
  | record (r : ThreatRecord)
  deriving DecidableEq, Repr

/-- One rule-corpus file as the loader sees it: unreadable, unparsable,
not a list, or a list of entries. -/
inductive FileData
  | readError
  | parseError
  | notList
  | entries (l : List YamlEntry)
  deriving DecidableEq, Repr

/-- The required fields absent from a record's key set. -/
def missingFields (keys : List String) : List String :=
  REQUIRED_FIELDS.filter (fun f => !keys.contains f)

/-- `isExpired`: true when `expires_at` parsed and `Date.now()` is past it. -/
def isExpired (r : ThreatRecord) (now : Int) : Bool :=
  match r.expiresTime with
  | none => false
  | some t => now > t

/-- Normalize `match_on` to a set (first-seen order). -/
def normalizeMatchOn : RawMatchOn → List String
  | .array l => dedupFirstSeen l
  | .single s => dedupFirstSeen [s]

/-- The Threat a validated record loads to (`threats.push({...})`). -/
def mkLoadedThreat (r : ThreatRecord) : Threat :=
  { id := r.id, category := r.category, severity := r.severity
    confidence := r.confidence, action := r.action, pattern := r.pattern
    matchOn := normalizeMatchOn r.matchOn, title := r.title
    expiresAt := r.expiresTime, revoked := false }

/-- Threats contributed by one list entry: skipped for a non-object, a
record missing required fields, a revoked record, an expired record, or an
invalid regex pattern; otherwise one validated Threat. -/
def entryThreats (now : Int) : YamlEntry → List Threat
  | .nonObject => []
  | .record r =>
      if missingFields r.keys ≠ [] then []
      else if r.revokedTrue then []
      else if isExpired r now then []
      else if !r.patternValid then []
      else [mkLoadedThreat r]

/-- Threats contributed by one file: none when reading, parsing or the
list shape fails; otherwise the per-entry results in order. -/
def fileThreats (now : Int) : FileData → List Threat
  | .readError => []
  | .parseError => []
  | .notList => []
  | .entries l => l.flatMap (entryThreats now)

/-- Insert one named file into a name-sorted list (stable ascending sort,
as `Array.prototype.sort()` compares filename strings). -/
def insertFile (x : String × FileData) :
    List (String × FileData) → List (String × FileData)
  | [] => [x]
  | y :: ys => if x.1 < y.1 then x :: y :: ys else y :: insertFile x ys

/-- Sort the directory listing by filename. -/
def sortFiles (l : List (String × FileData)) : List (String × FileData) :=
  l.foldl (fun acc x => insertFile x acc) []

/-- `loadThreats` over an abstract directory: `none` models a missing or
unreadable directory (readdir throws); otherwise the `.yaml` files are
processed in name order. -/
def loadThreats (dir : Option (List (String × FileData))) (now : Int) :
    List Threat :=
  match dir with
  | none => []
  | some listing =>
      (sortFiles (listing.filter (fun f => jsEndsWith f.1 ".yaml"))).flatMap
        (fun f => fileThreats now f.2)

/-- An entry the loader skips: non-object, missing fields, revoked,
expired, or an invalid pattern. -/
def badEntry (now : Int) : YamlEntry → Bool
  | .nonObject => true
  | .record r =>
      missingFields r.keys ≠ [] || r.revokedTrue || isExpired r now ||
        !r.patternValid

/-- A fully valid rule record used by concrete claim instances. -/
def goodRecord : ThreatRecord :=
  { keys := ["id", "category", "severity", "confidence", "action", "pattern",
      "match_on", "title"]
    revokedTrue := false, expiresTime := none, patternValid := true
    caseInsensitive := false, id := "T1", category := "tool"
    severity := "high", confidence := 0.9, action := "block"
    pattern := "rm -rf", matchOn := .single "command", title := "danger" }

/-- The same record with `revoked: true`. -/
def revokedRecord : ThreatRecord :=
  { goodRecord with revokedTrue := true, id := "T2" }

/-- The Threat that `goodRecord` loads to. -/
def goodThreat : Threat :=
  { id := "T1", category := "tool", severity := "high", confidence := 0.9
    action := "block", pattern := "rm -rf", matchOn := ["command"]
    title := "danger", expiresAt := none, revoked := false }

end ThreatLoader

namespace TrustedDomains

/-- One trusted installer domain. -/
structure TrustedDomain where
  domain : String
  reason : String
  deriving DecidableEq, Repr

/-- `isTrustedDomain`: lowercase the query, then accept an exact match
with a stored domain or a `"." ++ domain` suffix match. -/
def isTrustedDomain (domain : String) (trusted : List TrustedDomain) : Bool :=
  let domainLower := toLower domain
  trusted.any (fun td =>
    domainLower = td.domain || jsEndsWith domainLower ("." ++ td.domain))

end TrustedDomains

namespace Normalization

/-- Parsed form of a hierarchical URL, as produced by the WHATWG `URL`
constructor for `scheme://host[:port][/path][?query][#fragment]` inputs.
`query` holds the search parameters in order of appearance. -/
structure UrlParts where
  scheme : String
  host : String
  port : Option String
  path : String
  query : List (String × String)
  fragment : Option String
  deriving DecidableEq, Repr

/-- Characters allowed after the first character of a URL scheme. -/
def isSchemeChar (c : Char) : Bool :=
  c.isAlpha || c.isDigit || c = '+' || c = '-' || c = '.'

/-- Characters that terminate the host component. -/
def isHostEnd (c : Char) : Bool :=
  c = ':' || c = '/' || c = '?' || c = '#'

/-- Parse the optional `:port` part; returns none (parse failure) when a
non-digit appears before the next component, and drops an empty port. -/
def splitPort (after : List Char) : Option (Option String × List Char) :=
  match after with
  | ':' :: a2 =>
      let p := a2.takeWhile Char.isDigit
      let r := a2.dropWhile Char.isDigit
      match r with
      | [] => some (if p = [] then none else some (String.mk p), [])
      | c :: _ =>
          if c = '/' ∨ c = '?' ∨ c = '#' then
            some (if p = [] then none else some (String.mk p), r)
          else none
  | _ => some (none, after)

/-- Parse a query string into (name, value) pairs, splitting on `&` and on
the first `=` of each piece; empty pieces are dropped (URLSearchParams).
Percent-encoding is modelled as the identity. -/
def parseQuery (q : List Char) : List (String × String) :=
  (q.splitOn '&').filterMap (fun piece =>
    if piece = [] then none
    else
      let name := piece.takeWhile (fun c => c ≠ '=')
      let rest := piece.dropWhile (fun c => c ≠ '=')
      some (String.mk name,
        match rest with
        | '=' :: v => String.mk v
        | _ => ""))

/-- Modelled from the spec: the WHATWG `URL` constructor (which the source
relies on), restricted to hierarchical `scheme://host[:port][/path]
[?query][#fragment]` URLs.  The constructor lowercases scheme and host and
drops a default port; IDN/punycode, percent-encoding normalization and
dot-segment removal are outside the model.  `none` models the constructor
throwing. -/
def parseUrl (s : String) : Option UrlParts :=
  match s.data.takeWhile (fun c => c ≠ ':'), s.data.dropWhile (fun c => c ≠ ':') with
  | c0 :: sch, ':' :: '/' :: '/' :: rest =>
      if c0.isAlpha && sch.all isSchemeChar then
        let scheme := toLower (String.mk (c0 :: sch))
        let hostChars := rest.takeWhile (fun c => !isHostEnd c)
        let afterHost := rest.dropWhile (fun c => !isHostEnd c)
        if hostChars = [] then none
        else
          match splitPort afterHost with
          | none => none
          | some (port0, after2) =>
              let port :=
                if (scheme = "http" ∧ port0 = some "80") ∨
                    (scheme = "https" ∧ port0 = some "443") then none
                else port0
              let path := after2.takeWhile (fun c => c ≠ '?' ∧ c ≠ '#')
              let afterPath := after2.dropWhile (fun c => c ≠ '?' ∧ c ≠ '#')
              let query :=
                match afterPath with
                | '?' :: q => parseQuery (q.takeWhile (fun c => c ≠ '#'))
                | _ => []
              let fragment :=
                match afterPath.dropWhile (fun c => c ≠ '#') with
                | '#' :: f => some (String.mk f)
                | _ => none
              some { scheme := scheme, host := toLower (String.mk hostChars)
                     port := port, path := String.mk path
                     query := query, fragment := fragment }
      else none
  | _, _ => none

/-- JavaScript `Array.prototype.join("&")`. -/
def joinAmp : List String → String
  | [] => ""
  | [x] => x
  | x :: xs => x ++ "&" ++ joinAmp xs

/-- Serialize a parsed URL back to a string (WHATWG `toString` on the
modelled fragment: an empty path of a hierarchical URL prints as "/",
each search parameter prints as `name=value`). -/
def renderUrl (u : UrlParts) : String :=
  u.scheme ++ "://" ++ u.host ++
  (match u.port with
   | some p => ":" ++ p
   | none => "") ++
  (if u.path = "" then "/" else u.path) ++
  (match u.query with
   | [] => ""
   | _ => "?" ++ joinAmp (u.query.map (fun p => p.1 ++ "=" ++ p.2))) ++
  (match u.fragment with
   | none => ""
   | some f => "#" ++ f)

/-- Lexicographic comparison of character lists, as `searchParams.sort()`
compares parameter names by code unit. -/
def charListLe : List Char → List Char → Bool
  | [], _ => true
  | _ :: _, [] => false
  | a :: as, b :: bs =>
      if a < b then true
      else if b < a then false
      else charListLe as bs

/-- Name ordering on search parameters. -/
def nameLe (a b : String × String) : Prop :=
  charListLe a.1.data b.1.data = true

instance : DecidableRel nameLe := fun a b => by
  unfold nameLe
  infer_instance

/-- `searchParams.sort()`: stable sort of the parameters by name. -/
def sortParams (l : List (String × String)) : List (String × String) :=
  List.insertionSort nameLe l

instance : IsTotal (String × String) nameLe := by
  constructor
  intro a b
  show charListLe a.1.data b.1.data = true ∨ charListLe b.1.data a.1.data = true
  generalize a.1.data = x
  generalize b.1.data = y
  induction x generalizing y with
  | nil => left; rfl
  | cons c cs ih =>
      cases y with
      | nil => right; rfl
      | cons d ds =>
          rcases lt_trichotomy c d with h | h | h
          · left
            simp [charListLe, h]
          · subst h
            rcases ih ds with h2 | h2
            · left
              simp [charListLe, lt_irrefl, h2]
            · right
              simp [charListLe, lt_irrefl, h2]
          · right
            simp [charListLe, h]

instance : IsTrans (String × String) nameLe := by
  constructor
  intro a b c hab hbc
  have key : ∀ x y z : List Char, charListLe x y = true →
      charListLe y z = true → charListLe x z = true := by
    intro x
    induction x with
    | nil => intro y z _ _; rfl
    | cons cx xs ih =>
        intro y z hxy hyz
        cases y with
        | nil => exact absurd hxy (by simp [charListLe])
        | cons cy ys =>
            cases z with
            | nil => exact absurd hyz (by simp [charListLe])
            | cons cz zs =>
                simp only [charListLe] at hxy hyz ⊢
                by_cases h1 : cx < cy
                · by_cases h2 : cy < cz
                  · rw [if_pos (lt_trans h1 h2)]
                  · by_cases h3 : cz < cy
                    · rw [if_neg h2, if_pos h3] at hyz
                      exact Bool.noConfusion hyz
                    · have hyzeq : cy = cz := le_antisymm (not_lt.mp h3) (not_lt.mp h2)
                      subst hyzeq
                      rw [if_pos h1]
                · by_cases h1b : cy < cx
                  · rw [if_neg h1, if_pos h1b] at hxy
                    exact Bool.noConfusion hxy
                  · have hxyeq : cx = cy := le_antisymm (not_lt.mp h1b) (not_lt.mp h1)
                    subst hxyeq
                    rw [if_neg h1, if_neg h1b] at hxy
                    by_cases h2 : cx < cz
                    · rw [if_pos h2]
                    · by_cases h3 : cz < cx
                      · rw [if_neg h2, if_pos h3] at hyz
                        exact Bool.noConfusion hyz
                      · rw [if_neg h2, if_neg h3] at hyz ⊢
                        exact ih ys zs hxy hyz
  exact key a.1.data b.1.data c.1.data hab hbc

/-- `normalizeUrl`: parse; drop the fragment; sort the query parameters by
name; serialize (parsing already lowercased scheme and host); on parse
failure fall back to lowercasing the raw input. -/
def normalizeUrl (raw : String) : String :=
  match parseUrl raw with
  | some u => renderUrl { u with fragment := none, query := sortParams u.query }
  | none => toLower raw

end Normalization

/-- One extracted artifact. -/
structure Artifact where
  type : String
  value : String
  context : Option String := none
  deriving DecidableEq, Repr

namespace Extractors

/-- JavaScript regex `\s` (whitespace incl. unicode space separators). -/
def isJsSpace (c : Char) : Bool :=
  c = ' ' || c = '\t' || c = '\n' || c = '\r' ||
  c.val = 11 || c.val = 12 || c.val = 160 || c.val = 0xFEFF ||
  c.val = 0x1680 || (0x2000 ≤ c.val ∧ c.val ≤ 0x200A) ||
  c.val = 0x2028 || c.val = 0x2029 || c.val = 0x202F || c.val = 0x3000

/-- JavaScript regex `\w` (word character). -/
def isWordChar (c : Char) : Bool :=
  c.isAlpha || c.isDigit || c = '_'

/-- Characters allowed inside a URL match: `[^\s"')<>[\]{}]`. -/
def isUrlChar (c : Char) : Bool :=
  !isJsSpace c &&
  !(c = '"' ∨ c = Char.ofNat 39 ∨ c = ')' ∨ c = '<' ∨ c = '>' ∨
    c = '[' ∨ c = ']' ∨ c = Char.ofNat 123 ∨ c = Char.ofNat 125)

/-- Try to match `https?:\/\/[^\s"')<>[\]{}]+` at the head of the list;
returns the matched characters and the remainder after the match. -/
def matchUrlAt (l : List Char) : Option (List Char × List Char) :=
  match l with
  | 'h' :: 't' :: 't' :: 'p' :: 's' :: ':' :: '/' :: '/' :: r2 =>
      let run := r2.takeWhile isUrlChar
      if run = [] then none
      else some ("https://".data ++ run, r2.dropWhile isUrlChar)
  | 'h' :: 't' :: 't' :: 'p' :: ':' :: '/' :: '/' :: r2 =>
      let run := r2.takeWhile isUrlChar
      if run = [] then none
      else some ("http://".data ++ run, r2.dropWhile isUrlChar)
  | _ => none

/-- Non-overlapping left-to-right scan for URL matches (`matchAll`). -/
def urlScan : Nat → List Char → List (List Char)
  | 0, _ => []
  | _ + 1, [] => []
  | fuel + 1, c :: rest =>
      match matchUrlAt (c :: rest) with
      | some (url, after) => url :: urlScan fuel after
      | none => urlScan fuel rest

/-- All URL-pattern matches of a string, in order. -/
def urlMatches (s : String) : List String :=
  (urlScan s.data.length s.data).map String.mk

/-- Strip a maximal trailing run of `[.,;:!?]` (`TRAILING_PUNCT`). -/
def trimTrailingPunct (s : String) : String :=
  ⟨(s.data.reverse.dropWhile (fun c =>
      c = '.' ∨ c = ',' ∨ c = ';' ∨ c = ':' ∨ c = '!' ∨ c = '?')).reverse⟩

/-- `extractUrls`: all URL matches, trailing punctuation trimmed,
de-duplicated keeping the first occurrence of each. -/
def extractUrls (text : String) : List String :=
  dedupFirstSeen ((urlMatches text).map trimTrailingPunct)

/-- Find the earliest heredoc terminator `\n[ \t]*<delim>\b` (the lazy
body); returns the remainder after the closing delimiter. -/
def heredocTerm (delim : List Char) : List Char → Option (List Char)
  | [] => none
  | c :: rest =>
      if c = '\n' then
        let ws := rest.dropWhile (fun x => x = ' ' ∨ x = '\t')
        if delim.isPrefixOf ws then
          let after := ws.drop delim.length
          if (match after with
              | [] => true
              | d :: _ => !isWordChar d) then some after
          else heredocTerm delim rest
        else heredocTerm delim rest
      else heredocTerm delim rest

/-- Try to match one heredoc `<<-?\s*['"]?(\w+)['"]?\n[\s\S]*?\n[ \t]*\1\b`
at the head; returns the delimiter and the remainder after the match. -/
def tryHeredoc : List Char → Option (List Char × List Char)
  | '<' :: '<' :: r =>
      let r1 := match r with
        | '-' :: r2 => r2
        | _ => r
      let r2 := r1.dropWhile isJsSpace
      let r3 := match r2 with
        | c :: rest => if c = '"' ∨ c = Char.ofNat 39 then rest else r2
        | [] => r2
      let delim := r3.takeWhile isWordChar
      if delim = [] then none
      else
        let r4 := r3.dropWhile isWordChar
        let r5 := match r4 with
          | c :: rest => if c = '"' ∨ c = Char.ofNat 39 then rest else r4
          | [] => r4
        match r5 with
        | '\n' :: body => (heredocTerm delim body).map (fun after => (delim, after))
        | _ => none
  | _ => none

/-- Replace every heredoc match by `<<` plus its delimiter (`$1`). -/
def stripHeredocsGo : Nat → List Char → List Char
  | 0, l => l
  | _ + 1, [] => []
  | fuel + 1, c :: rest =>
      match tryHeredoc (c :: rest) with
      | some (delim, after) => '<' :: '<' :: (delim ++ stripHeredocsGo fuel after)
      | none => c :: stripHeredocsGo fuel rest

/-- `stripHeredocs`: strip heredoc bodies from a command. -/
def stripHeredocs (command : String) : String :=
  ⟨stripHeredocsGo command.data.length command.data⟩

/-- Word-boundary test for the character before a match position. -/
def boundaryOk : Option Char → Bool
  | none => true
  | some p => !isWordChar p

/-- Does one of the given words match here, followed by a word boundary? -/
def wordHere (words : List (List Char)) (l : List Char) : Bool :=
  words.any (fun w =>
    w.isPrefixOf l &&
    (match l.drop w.length with
     | [] => true
     | d :: _ => !isWordChar d))

/-- Skip to just past the first `|` (the `[^|]*\|` idiom). -/
def afterFirstPipe (l : List Char) : Option (List Char) :=
  match l.dropWhile (fun c => c ≠ '|') with
  | '|' :: rest => some rest
  | _ => none

/-- Shell names used as pipe targets (`SHELLS`). -/
def shellWords : List (List Char) :=
  ["bash".data, "sh".data, "zsh".data, "ksh".data, "dash".data]

/-- Interpreter names accepted by the base64 rule. -/
def base64Targets : List (List Char) :=
  shellWords ++ ["python".data, "perl".data, "ruby".data, "node".data]

/-- Continuation of `BASE64_DECODE_EXEC` after the initial word:
`[^|]*\|\s*base64\s+(-d|--decode)[^|]*\|\s*(<targets>)\b`. -/
def base64Cont (l : List Char) : Bool :=
  match afterFirstPipe l with
  | none => false
  | some p1 =>
      let t := p1.dropWhile isJsSpace
      if ("base64".data).isPrefixOf t then
        let t2 := t.drop 6
        match t2 with
        | [] => false
        | c :: _ =>
            if isJsSpace c then
              let t3 := t2.dropWhile isJsSpace
              let t4 :=
                if ("-d".data).isPrefixOf t3 then some (t3.drop 2)
                else if ("--decode".data).isPrefixOf t3 then some (t3.drop 8)
                else none
              match t4 with
              | none => false
              | some rest =>
                  match afterFirstPipe rest with
                  | none => false
                  | some p2 => wordHere base64Targets (p2.dropWhile isJsSpace)
            else false
      else false

/-- `BASE64_DECODE_EXEC.test`: scan for `\b(echo|printf|cat)\b` followed by
the base64-decode-pipe continuation. -/
def base64Scan : Option Char → List Char → Bool
  | _, [] => false
  | prev, c :: rest =>
      (boundaryOk prev &&
        (["echo".data, "printf".data, "cat".data].any (fun w =>
          w.isPrefixOf (c :: rest) &&
          (match (c :: rest).drop w.length with
           | [] => false
           | d :: _ => !isWordChar d) &&
          base64Cont ((c :: rest).drop w.length)))) ||
      base64Scan (some c) rest

/-- `BASE64_DECODE_EXEC.test` on a string. -/
def base64DecodeExecTest (s : String) : Bool :=
  base64Scan none s.data

/-- Hex digit class `[0-9a-fA-F]`. -/
def isHexDigit (c : Char) : Bool :=
  c.isDigit || ('a' ≤ c ∧ c ≤ 'f') || ('A' ≤ c ∧ c ≤ 'F')

/-- Octal digit class `[0-7]`. -/
def isOctalDigit (c : Char) : Bool :=
  '0' ≤ c ∧ c ≤ '7'

/-- The escape alternation `(\\x[0-9a-fA-F]{2}|\\[0-7]{3})`. -/
def printfEscapeAt (l : List Char) : Bool :=
  match l with
  | '\\' :: 'x' :: h1 :: h2 :: _ => isHexDigit h1 && isHexDigit h2
  | '\\' :: o1 :: o2 :: o3 :: _ => isOctalDigit o1 && isOctalDigit o2 && isOctalDigit o3
  | _ => false

/-- Continuation of `PRINTF_ENCODE_EXEC` after `printf`:
`\s+['"](escape)[^|]*\|\s*(<shells>)\b`. -/
def printfCont (l : List Char) : Bool :=
  match l with
  | [] => false
  | c :: _ =>
      if isJsSpace c then
        let t := l.dropWhile isJsSpace
        match t with
        | q :: t2 =>
            if q = '"' ∨ q = Char.ofNat 39 then
              printfEscapeAt t2 &&
              (match afterFirstPipe t2 with
               | none => false
               | some p => wordHere shellWords (p.dropWhile isJsSpace))
            else false
        | [] => false
      else false

/-- `PRINTF_ENCODE_EXEC.test`: scan for `\bprintf\b` plus continuation. -/
def printfScan : Option Char → List Char → Bool
  | _, [] => false
  | prev, c :: rest =>
      (boundaryOk prev &&
        ("printf".data).isPrefixOf (c :: rest) &&
        (match (c :: rest).drop 6 with
         | [] => false
         | d :: _ => !isWordChar d) &&
        printfCont ((c :: rest).drop 6)) ||
      printfScan (some c) rest

/-- `PRINTF_ENCODE_EXEC.test` on a string. -/
def printfEncodeExecTest (s : String) : Bool :=
  printfScan none s.data

/-- The variable-interpolation alternation
`(\$\{?\w+\}?\.\$\{?\w+\}?|\$\{?\w+\}?:\/\/)`. -/
def varAlt (l : List Char) : Bool :=
  match l with
  | '$' :: r =>
      let r1 := match r with
        | c :: rr => if c = Char.ofNat 123 then rr else r
        | [] => r
      let w := r1.takeWhile isWordChar
      if w = [] then false
      else
        let r2 := r1.dropWhile isWordChar
        let r3 := match r2 with
          | c :: rr => if c = Char.ofNat 125 then rr else r2
          | [] => r2
        (match r3 with
         | '.' :: '$' :: r4 =>
             let r5 := match r4 with
               | c :: rr => if c = Char.ofNat 123 then rr else r4
               | [] => r4
             r5.takeWhile isWordChar ≠ []
         | _ => false) ||
        (match r3 with
         | ':' :: '/' :: '/' :: _ => true
         | _ => false)
  | _ => false

/-- Search for the variable pattern within a `[^|;]*` run. -/
def varSearch : List Char → Bool
  | [] => false
  | c :: rest =>
      varAlt (c :: rest) ||
      (if c = '|' ∨ c = ';' then false else varSearch rest)

/-- `VAR_INTERPOLATION_URL.test`: scan for `\b(curl|wget|fetch)\b` followed
by the variable pattern inside the same pipe-and-semicolon-free stretch. -/
def varScan : Option Char → List Char → Bool
  | _, [] => false
  | prev, c :: rest =>
      (boundaryOk prev &&
        (["curl".data, "wget".data, "fetch".data].any (fun w =>
          w.isPrefixOf (c :: rest) &&
          (match (c :: rest).drop w.length with
           | [] => false
           | d :: _ => !isWordChar d) &&
          varSearch ((c :: rest).drop w.length)))) ||
      varScan (some c) rest

/-- `VAR_INTERPOLATION_URL.test` on a string. -/
def varInterpolationUrlTest (s : String) : Bool :=
  varScan none s.data

/-- `directPipe`: the URL (as a literal substring) piped straight to a
shell: `<url>[^|]*\|\s*(<shells>)\b`. -/
def directPipeAt (url : List Char) : List Char → Bool
  | [] => false
  | c :: rest =>
      (url.isPrefixOf (c :: rest) &&
        (match afterFirstPipe ((c :: rest).drop url.length) with
         | none => false
         | some p => wordHere shellWords (p.dropWhile isJsSpace))) ||
      directPipeAt url rest

/-- `wrappedPipe` continuation after the first pipe:
`\s*\S+\s+(\S+\s+)?(<shells>)\b`. -/
def wrappedCont (p : List Char) : Bool :=
  let t := p.dropWhile isJsSpace
  let w1 := t.takeWhile (fun c => !isJsSpace c)
  if w1 = [] then false
  else
    let t2 := t.dropWhile (fun c => !isJsSpace c)
    match t2 with
    | [] => false
    | c :: _ =>
        if isJsSpace c then
          let t3 := t2.dropWhile isJsSpace
          (let w2 := t3.takeWhile (fun c => !isJsSpace c)
           if w2 = [] then false
           else
             let t4 := t3.dropWhile (fun c => !isJsSpace c)
             match t4 with
             | [] => false
             | d :: _ =>
                 isJsSpace d && wordHere shellWords (t4.dropWhile isJsSpace)) ||
          wordHere shellWords t3
        else false

/-- `wrappedPipe`: URL piped through one wrapper command to a shell. -/
def wrappedPipeAt (url : List Char) : List Char → Bool
  | [] => false
  | c :: rest =>
      (url.isPrefixOf (c :: rest) &&
        (match afterFirstPipe ((c :: rest).drop url.length) with
         | none => false
         | some p => wrappedCont p)) ||
      wrappedPipeAt url rest

/-- Search for a `|` (without crossing `)` or a backtick) whose target is a
shell: the `[^)\x60]*\|\s*(<shells>)\b` tail of `subshellExec`. -/
def pipeShellSearch : List Char → Bool
  | [] => false
  | c :: rest =>
      if c = ')' ∨ c = Char.ofNat 96 then false
      else if c = '|' then
        wordHere shellWords (rest.dropWhile isJsSpace) || pipeShellSearch rest
      else pipeShellSearch rest

/-- `subshellExec`: `(\$\(` or backtick, the URL, then a pipe to a shell
before any `)` or backtick. -/
def subshellExecAt (url : List Char) : List Char → Bool
  | [] => false
  | c :: rest =>
      ((match c :: rest with
        | '$' :: '(' :: r2 => url.isPrefixOf r2 && pipeShellSearch (r2.drop url.length)
        | q :: r2 =>
            q = Char.ofNat 96 && url.isPrefixOf r2 && pipeShellSearch (r2.drop url.length)
        | [] => false)) ||
      subshellExecAt url rest

/-- Context tag for a URL found piped to a shell in the full command. -/
def pipedToShellContext (command url : String) : Option String :=
  if directPipeAt url.data command.data || wrappedPipeAt url.data command.data ||
      subshellExecAt url.data command.data then
    some "piped to shell"
  else none

/-- `extractFromBash`: a command artifact for the heredoc-stripped command,
extra command artifacts for detected encoding-bypass patterns, then a url
artifact per URL extracted from the unstripped command. -/
def extractFromBash (command : String) : List Artifact :=
  let effective := stripHeredocs command
  [{ type := "command", value := effective }] ++
  (if base64DecodeExecTest effective then
    [{ type := "command", value := effective, context := some "base64_decode_exec" }]
   else []) ++
  (if printfEncodeExecTest effective then
    [{ type := "command", value := effective, context := some "printf_encode_exec" }]
   else []) ++
  (if varInterpolationUrlTest effective then
    [{ type := "command", value := effective,
       context := some "variable_interpolation_url" }]
   else []) ++
  (extractUrls command).map (fun url =>
    { type := "url", value := url, context := pipedToShellContext command url })

/-- A command whose heredoc body mentions a URL. -/
def heredocExample : String :=
  "git commit -F- <<EOF\nsee https://evil.com/x.\nEOF"

end Extractors

namespace PackageExtract

/-- One parsed package (`ParsedPackage`). -/
structure ParsedPackage where
  name : String
  registry : String
  version : Option String := none
  source : String
  deriving DecidableEq, Repr

/-- JavaScript `trim` (both ends, `\s`). -/
def jsTrim (s : String) : String :=
  ⟨((s.data.dropWhile Extractors.isJsSpace).reverse.dropWhile
      Extractors.isJsSpace).reverse⟩

/-- One iteration of the leading-noise pattern `(\s*(sudo|env\s+\S+=\S+)\s+)`:
returns the remainder after the iteration, or `none` when it does not match
here.  The mandatory trailing whitespace of an iteration is merged with the
next iteration's leading `\s*` by consuming the whole whitespace run, which
coincides with the greedy regex.  An `env` word matches `\S+=\S+` followed by
whitespace exactly when the maximal non-space run has `=` at an internal
position. -/
def sudoEnvIter (l : List Char) : Option (List Char) :=
  let l1 := l.dropWhile Extractors.isJsSpace
  if "sudo".data.isPrefixOf l1 then
    match l1.drop 4 with
    | c :: rest =>
        if Extractors.isJsSpace c then
          some ((c :: rest).dropWhile Extractors.isJsSpace)
        else none
    | [] => none
  else if "env".data.isPrefixOf l1 then
    match l1.drop 3 with
    | c :: rest =>
        if Extractors.isJsSpace c then
          let r2 := (c :: rest).dropWhile Extractors.isJsSpace
          let word := r2.takeWhile (fun d => !Extractors.isJsSpace d)
          let r3 := r2.dropWhile (fun d => !Extractors.isJsSpace d)
          if '=' ∈ (word.drop 1).dropLast ∧ r3 ≠ [] then
            some (r3.dropWhile Extractors.isJsSpace)
          else none
        else none
    | [] => none
  else none

/-- Apply `sudoEnvIter` until it fails (the greedy `+` of the anchored
regex; with `^` the global flag yields at most one replacement). -/
def stripSudoEnvGo : Nat → List Char → List Char
  | 0, l => l
  | fuel + 1, l =>
      match sudoEnvIter l with
      | some r => stripSudoEnvGo fuel r
      | none => l

/-- `command.replace(/^(\s*(sudo|env\s+\S+=\S+)\s+)+/g, "").trim()`. -/
def normalizeCommand (command : String) : String :=
  jsTrim ⟨stripSudoEnvGo command.data.length command.data⟩

/-- `split(/\s*(?:&&|;|\|)\s*/)`: cut at each `&&`, `;` or `|`.  The `\s*`
absorption around the delimiter is dropped here: every segment is trimmed
and whitespace-tokenized afterwards, so keeping the surrounding whitespace
inside the segments is observationally equivalent. -/
def splitCmdsGo : List Char → List Char → List (List Char)
  | cur, '&' :: '&' :: rest => cur.reverse :: splitCmdsGo [] rest
  | cur, ';' :: rest => cur.reverse :: splitCmdsGo [] rest
  | cur, '|' :: rest => cur.reverse :: splitCmdsGo [] rest
  | cur, c :: rest => splitCmdsGo (c :: cur) rest
  | cur, [] => [cur.reverse]

/-- Split a normalized command line into chained segments. -/
def splitCommands (s : String) : List String :=
  (splitCmdsGo [] s.data).map String.mk

/-- The `shellTokenize` loop: current token (reversed) and quote flags. -/
def shellTokenizeGo (cur : List Char) (inSingle inDouble : Bool) :
    List Char → List String
  | [] => if cur = [] then [] else [String.mk cur.reverse]
  | ch :: rest =>
      if ch = Char.ofNat 39 ∧ inDouble = false then
        shellTokenizeGo cur (!inSingle) inDouble rest
      else if ch = '"' ∧ inSingle = false then
        shellTokenizeGo cur inSingle (!inDouble) rest
      else if Extractors.isJsSpace ch ∧ inSingle = false ∧ inDouble = false then
        (if cur = [] then [] else [String.mk cur.reverse]) ++
          shellTokenizeGo [] inSingle inDouble rest
      else
        shellTokenizeGo (ch :: cur) inSingle inDouble rest

/-- `shellTokenize`: split on whitespace, respecting quotes. -/
def shellTokenize (cmd : String) : List String :=
  shellTokenizeGo [] false false cmd.data

/-- JavaScript line terminators, which `.` does not match. -/
def isLineTerm (c : Char) : Bool :=
  c = '\n' ∨ c = '\r' ∨ c.val = 0x2028 ∨ c.val = 0x2029

/-- `token.replace(/^.*[/\\]/, "")`: drop everything up to and including the
last `/` or `\` occurring before the first line terminator. -/
def basenameOf (t : String) : String :=
  let firstLine := t.data.takeWhile (fun c => !isLineTerm c)
  let toSlash := firstLine.reverse.dropWhile (fun c => ¬(c = '/' ∨ c = '\\'))
  match toSlash with
  | [] => t
  | _ :: _ => ⟨t.data.drop toSlash.length⟩

/-- `isPackageName` (the source's early-return chain written as one
conjunction). -/
def isPackageName (token : String) : Bool :=
  !jsStartsWith token "-" &&
  (match token.data with
   | c :: _ => c.isAlpha || c = '@'
   | [] => false) &&
  !jsStartsWith token "https://" && !jsStartsWith token "http://" &&
  !jsStartsWith token "git+" &&
  !jsStartsWith token "./" && !jsStartsWith token "../" &&
  !jsStartsWith token "/" &&
  !jsStartsWith token "file:" &&
  !(token == ".")

/-- `splitNameVersion`: split `name@version`, handling `@scope/name@version`. -/
def splitNameVersion (token : String) : String × Option String :=
  let l := token.data
  if jsStartsWith token "@" then
    match l.findIdx? (· = '/') with
    | none => (token, none)
    | some afterScope =>
        let rest := l.drop (afterScope + 1)
        match rest.findIdx? (· = '@') with
        | some atIdx =>
            if 0 < atIdx then
              (⟨l.take (afterScope + 1) ++ rest.take atIdx⟩,
               some ⟨rest.drop (atIdx + 1)⟩)
            else (token, none)
        | none => (token, none)
  else
    match l.findIdx? (· = '@') with
    | some atIdx =>
        if 0 < atIdx then (⟨l.take atIdx⟩, some ⟨l.drop (atIdx + 1)⟩)
        else (token, none)
    | none => (token, none)

/-- Flags whose value argument is not a package (`NPM_VALUE_FLAGS`). -/
def NPM_VALUE_FLAGS : List String :=
  ["--registry", "--tag", "--workspace", "-w", "--prefix", "--cache",
   "--userconfig", "--globalconfig"]

/-- The package record pushed for an npm-family token. -/
def mkNpmPkg (t : String) : ParsedPackage :=
  { name := (splitNameVersion t).1, registry := "npm",
    version := (splitNameVersion t).2, source := "command" }

/-- `npx <pkg>`: the first non-flag token is the package (then break). -/
def npxLoop : List String → List ParsedPackage
  | [] => []
  | t :: rest =>
      if t = "--" ∨ t = "-y" ∨ t = "--yes" ∨ t = "-p" ∨ t = "--package" then
        npxLoop rest
      else if jsStartsWith t "-" then npxLoop rest
      else if !isPackageName t then []
      else [mkNpmPkg t]

/-- The `npm install/i/add/ci` token loop with value-flag skipping. -/
def npmLoop : Bool → List String → List ParsedPackage
  | _, [] => []
  | true, _ :: rest => npmLoop false rest
  | false, t :: rest =>
      if t ∈ NPM_VALUE_FLAGS then npmLoop true rest
      else if jsStartsWith t "-" then npmLoop false rest
      else if !isPackageName t then []
      else mkNpmPkg t :: npmLoop false rest

/-- The shared `add/install` loop (yarn/pnpm/bun): skip `-` flags, break on
the first non-package token, push every package token. -/
def simpleLoop : List String → List ParsedPackage
  | [] => []
  | t :: rest =>
      if jsStartsWith t "-" then simpleLoop rest
      else if !isPackageName t then []
      else mkNpmPkg t :: simpleLoop rest

/-- `bunx <pkg>` / `pnpm dlx <pkg>`: first non-flag token (then break). -/
def firstLoop : List String → List ParsedPackage
  | [] => []
  | t :: rest =>
      if jsStartsWith t "-" then firstLoop rest
      else if !isPackageName t then []
      else [mkNpmPkg t]

/-- `extractNpmPackages`. -/
def extractNpmPackages (tokens : List String) : List ParsedPackage :=
  let binary := basenameOf (tokens.headD "")
  if binary = "npx" then npxLoop (tokens.drop 1)
  else if tokens.getD 1 "" ∈ ["install", "i", "add", "ci"] then
    npmLoop false (tokens.drop 2)
  else []

/-- `extractYarnPackages`. -/
def extractYarnPackages (tokens : List String) : List ParsedPackage :=
  if tokens.getD 1 "" = "add" then simpleLoop (tokens.drop 2) else []

/-- `extractPnpmBunPackages`. -/
def extractPnpmBunPackages (tokens : List String) (binary : String) :
    List ParsedPackage :=
  if binary = "bunx" then firstLoop (tokens.drop 1)
  else if tokens.getD 1 "" = "dlx" then firstLoop (tokens.drop 2)
  else if tokens.getD 1 "" ∈ ["add", "install", "i"] then
    simpleLoop (tokens.drop 2)
  else []

/-- `extractBunPackages`. -/
def extractBunPackages (tokens : List String) : List ParsedPackage :=
  if tokens.getD 1 "" ∈ ["add", "install", "i"] then simpleLoop (tokens.drop 2)
  else []

/-- pip flags that take a value argument. -/
def PIP_VALUE_FLAGS : List String :=
  ["-r", "--requirement", "-c", "--constraint", "-e", "--editable",
   "-t", "--target", "--prefix", "-i", "--index-url", "--extra-index-url",
   "-f", "--find-links"]

/-- Character class `[a-zA-Z0-9._-]` of the pip token regex. -/
def isPipNameChar (c : Char) : Bool :=
  c.isAlpha || c.isDigit || c = '.' || c = '_' || c = '-'

/-- Character class `[><=!~]` (version-specifier characters). -/
def isPipSpecChar (c : Char) : Bool :=
  c = '>' ∨ c = '<' ∨ c = '=' ∨ c = '!' ∨ c = '~'

/-- The optional `(?:[><=!~]+(.+))?$` tail of the pip token regex, applied to
what remains after the name: an empty remainder means no version; otherwise
the remainder must start with a specifier character and have length at least
two; the greedy specifier run then gives one character back to `(.+)` when it
reaches the end of the token. -/
def pipVersion (rest : List Char) : Option (Option String) :=
  match rest with
  | [] => some none
  | c :: cs =>
      if isPipSpecChar c then
        match cs with
        | [] => none
        | _ :: _ =>
            let after := rest.dropWhile isPipSpecChar
            if after = [] then
              some (some ⟨rest.drop ((rest.takeWhile isPipSpecChar).length - 1)⟩)
            else some (some ⟨after⟩)
      else none

/-- `t.match(/^([a-zA-Z0-9._-]+)(?:[><=!~]+(.+))?$/)`: the name is the
maximal run of name characters (it must be non-empty), and the whole token
must be consumed by name plus optional version tail. -/
def pipToken (t : String) : Option (String × Option String) :=
  let name := t.data.takeWhile isPipNameChar
  if name = [] then none
  else
    match pipVersion (t.data.dropWhile isPipNameChar) with
    | some v => some (⟨name⟩, v)
    | none => none

/-- The `pip install` token loop: value flags skip the next token, `-` flags
are skipped, the first non-package token breaks, and a token failing the
name/version regex is skipped without breaking. -/
def pipLoop : Bool → List String → List ParsedPackage
  | _, [] => []
  | true, _ :: rest => pipLoop false rest
  | false, t :: rest =>
      if t ∈ PIP_VALUE_FLAGS then pipLoop true rest
      else if jsStartsWith t "-" then pipLoop false rest
      else if !isPackageName t then []
      else
        match pipToken t with
        | some nv =>
            { name := nv.1, registry := "pypi", version := nv.2,
              source := "command" } :: pipLoop false rest
        | none => pipLoop false rest

/-- `extractPipPackages`. -/
def extractPipPackages (tokens : List String) : List ParsedPackage :=
  if tokens.getD 1 "" = "install" then pipLoop false (tokens.drop 2) else []

/-- One position of the substring search for `/python3?\.\d+/`. -/
def pythonVerAt (l : List Char) : Bool :=
  ("python3.".data.isPrefixOf l &&
    (match l.drop 8 with | d :: _ => d.isDigit | [] => false)) ||
  ("python.".data.isPrefixOf l &&
    (match l.drop 7 with | d :: _ => d.isDigit | [] => false))

/-- Substring search for `/python3?\.\d+/`. -/
def pythonVerSearch : List Char → Bool
  | [] => false
  | c :: rest => pythonVerAt (c :: rest) || pythonVerSearch rest

/-- The python-binary test guarding `python -m pip install`. -/
def isPythonBinary (binary : String) : Bool :=
  decide (binary ∈ ["python", "python3", "python.exe", "python3.exe"]) ||
  pythonVerSearch binary.data ||
  jsEndsWith binary "/python" || jsEndsWith binary "/python3"

/-- The per-segment dispatch of `extractPackagesFromCommand`. -/
def extractFromTokens (tokens : List String) : List ParsedPackage :=
  match tokens with
  | [] => []
  | t0 :: _ =>
      let binary := basenameOf t0
      if binary = "npm" ∨ binary = "npx" then extractNpmPackages tokens
      else if binary = "yarn" then extractYarnPackages tokens
      else if binary = "pnpm" ∨ binary = "bunx" then
        extractPnpmBunPackages tokens binary
      else if binary = "bun" then extractBunPackages tokens
      else if binary = "pip" ∨ binary = "pip3" then extractPipPackages tokens
      else if isPythonBinary binary then
        if tokens.getD 1 "" = "-m" ∧
            (tokens.getD 2 "" = "pip" ∨ tokens.getD 2 "" = "pip3") then
          extractPipPackages (tokens.drop 2)
        else []
      else []

/-- `extractPackagesFromCommand`: normalize, split chained commands,
tokenize each and dispatch on the binary name. -/
def extractPackagesFromCommand (command : String) : List ParsedPackage :=
  ((splitCommands (normalizeCommand command)).map
    (fun cmd => extractFromTokens (shellTokenize (jsTrim cmd)))).flatten

/-- The package extracted from `npm install express@4.18.0`. -/
def expressPkg : ParsedPackage :=
  { name := "express", registry := "npm", version := some "4.18.0",
    source := "command" }

/-- The package extracted from the token `requests==2.31.0`. -/
def requestsPkg : ParsedPackage :=
  { name := "requests", registry := "pypi", version := some "2.31.0",
    source := "command" }

/-- The package extracted from the token `flask>=2.0`. -/
def flaskPkg : ParsedPackage :=
  { name := "flask", registry := "pypi", version := some "2.0",
    source := "command" }

end PackageExtract




namespace DecisionEngine

theorem insertSignal_perm (x : Signal) (l : List Signal) :
    List.Perm (insertSignal x l) (x :: l) := by
  induction l with
  | nil => simp [insertSignal]
  | cons y ys ih =>
      simp only [insertSignal]
      split
      · exact List.Perm.refl _
      · exact (ih.cons y).trans (List.Perm.swap x y ys)

theorem sortSignals_perm (l : List Signal) : List.Perm (sortSignals l) l := by
  suffices h : ∀ (l acc : List Signal),
      List.Perm (l.foldl (fun acc x => insertSignal x acc) acc) (acc ++ l) by
    simpa using h l []
  intro l
  induction l with
  | nil => intro acc; simp
  | cons x xs ih =>
      intro acc
      have h1 := ih (insertSignal x acc)
      have h2 := (insertSignal_perm x acc).append_right xs
      exact h1.trans (h2.trans (@List.perm_middle _ x acc xs).symm)

theorem sortSignals_head (s : Signal) (rest : List Signal) :
    (sortSignals (s :: rest)).head? = some (topOf s rest) := by
  suffices h : ∀ (l acc : List Signal) (a : Signal), acc.head? = some a →
      (l.foldl (fun acc x => insertSignal x acc) acc).head? =
        some (l.foldl pickMax a) by
    exact h rest [s] s rfl
  intro l
  induction l with
  | nil => intro acc a ha; simpa using ha
  | cons x xs ih =>
      intro acc a ha
      cases acc with
      | nil => simp at ha
      | cons b t =>
          obtain rfl : b = a := by simpa using ha
          simp only [List.foldl_cons]
          apply ih
          by_cases hc : DECISION_PRIORITY b.decision < DECISION_PRIORITY x.decision <;>
            simp [insertSignal, pickMax, hc]

theorem le_foldl_pickMax (a : Signal) (l : List Signal) :
    DECISION_PRIORITY a.decision ≤ DECISION_PRIORITY (l.foldl pickMax a).decision := by
  induction l generalizing a with
  | nil => simp
  | cons x xs ih =>
      simp only [List.foldl_cons]
      refine le_trans ?_ (ih (pickMax a x))
      simp only [pickMax]
      split
      · omega
      · exact le_refl _

theorem topOf_mem (s : Signal) (rest : List Signal) : topOf s rest ∈ s :: rest := by
  suffices h : ∀ (l : List Signal) (a : Signal), l.foldl pickMax a = a ∨
      l.foldl pickMax a ∈ l by
    rcases h rest s with h1 | h1
    · rw [topOf, h1]; exact List.mem_cons_self _ _
    · exact List.mem_cons_of_mem _ h1
  intro l
  induction l with
  | nil => intro a; left; rfl
  | cons x xs ih =>
      intro a
      simp only [List.foldl_cons]
      rcases ih (pickMax a x) with h1 | h1
      · rw [h1]
        simp only [pickMax]
        split
        · right; exact List.mem_cons_self _ _
        · left; rfl
      · right; exact List.mem_cons_of_mem _ h1

theorem le_topOf (s : Signal) (rest : List Signal) :
    ∀ x ∈ s :: rest, DECISION_PRIORITY x.decision ≤
      DECISION_PRIORITY (topOf s rest).decision := by
  suffices h : ∀ (l : List Signal) (a : Signal), ∀ x ∈ a :: l,
      DECISION_PRIORITY x.decision ≤ DECISION_PRIORITY (l.foldl pickMax a).decision by
    exact h rest s
  intro l
  induction l with
  | nil => intro a x hx; simp at hx; subst hx; simp
  | cons y ys ih =>
      intro a x hx
      simp only [List.foldl_cons]
      rcases List.mem_cons.mp hx with rfl | hx
      · refine le_trans ?_ (le_foldl_pickMax (pickMax x y) ys)
        simp only [pickMax]; split
        · omega
        · exact le_refl _
      · rcases List.mem_cons.mp hx with rfl | hx
        · refine le_trans ?_ (le_foldl_pickMax (pickMax a x) ys)
          simp only [pickMax]; split
          · exact le_refl _
          · omega
        · exact ih (pickMax a y) x (List.mem_cons_of_mem _ hx)

theorem topOf_first (s : Signal) (rest : List Signal) :
    ∃ l1 l2, s :: rest = l1 ++ topOf s rest :: l2 ∧
      ∀ y ∈ l1, DECISION_PRIORITY y.decision <
        DECISION_PRIORITY (topOf s rest).decision := by
  suffices h : ∀ (l : List Signal) (a : Signal),
      ∃ l1 l2, a :: l = l1 ++ (l.foldl pickMax a) :: l2 ∧
        ∀ y ∈ l1, DECISION_PRIORITY y.decision <
          DECISION_PRIORITY (l.foldl pickMax a).decision by
    exact h rest s
  intro l
  induction l with
  | nil =>
      intro a
      exact ⟨[], [], by simp, by simp⟩
  | cons x xs ih =>
      intro a
      simp only [List.foldl_cons]
      obtain ⟨l1, l2, heq, hlt⟩ := ih (pickMax a x)
      have hgrow : DECISION_PRIORITY (pickMax a x).decision ≤
          DECISION_PRIORITY (xs.foldl pickMax (pickMax a x)).decision :=
        le_foldl_pickMax (pickMax a x) xs
      by_cases hax : DECISION_PRIORITY a.decision < DECISION_PRIORITY x.decision
      · have hpick : pickMax a x = x := by simp [pickMax, hax]
        rw [hpick] at heq hlt hgrow ⊢
        refine ⟨a :: l1, l2, by rw [List.cons_append, ← heq], ?_⟩
        intro y hy
        rcases List.mem_cons.mp hy with rfl | hy
        · exact lt_of_lt_of_le hax hgrow
        · exact hlt y hy
      · have hpick : pickMax a x = a := by simp [pickMax, hax]
        rw [hpick] at heq hlt hgrow ⊢
        cases l1 with
        | nil =>
            simp only [List.nil_append] at heq
            have hTa : xs.foldl pickMax a = a := (List.cons_eq_cons.mp heq.symm).1
            refine ⟨[], x :: xs, ?_, by simp⟩
            rw [hTa, List.nil_append]
        | cons b t =>
            have hb : a = b := (List.cons_eq_cons.mp heq).1
            have ht : xs = t ++ xs.foldl pickMax a :: l2 :=
              (List.cons_eq_cons.mp heq).2
            subst hb
            have hamem : DECISION_PRIORITY a.decision <
                DECISION_PRIORITY (xs.foldl pickMax a).decision :=
              hlt a (List.mem_cons_self _ _)
            refine ⟨a :: x :: t, l2, ?_, ?_⟩
            · rw [List.cons_append, List.cons_append]
              exact congrArg (a :: x :: ·) ht
            · intro y hy
              rcases List.mem_cons.mp hy with rfl | hy
              · exact hamem
              · rcases List.mem_cons.mp hy with rfl | hy
                · exact lt_of_le_of_lt (by omega) hamem
                · exact hlt y (List.mem_cons_of_mem _ hy)

theorem maxConf_le (s : Signal) (rest : List Signal) :
    ∀ x ∈ s :: rest, x.confidence ≤ maxConf s rest := by
  suffices h : ∀ (l : List Signal) (c : Rat),
      (c ≤ l.foldl (fun m x => max m x.confidence) c) ∧
      ∀ x ∈ l, x.confidence ≤ l.foldl (fun m x => max m x.confidence) c by
    intro x hx
    rcases List.mem_cons.mp hx with rfl | hx
    · exact (h rest x.confidence).1
    · exact (h rest s.confidence).2 x hx
  intro l
  induction l with
  | nil => intro c; exact ⟨le_refl _, by simp⟩
  | cons y ys ih =>
      intro c
      simp only [List.foldl_cons]
      constructor
      · exact le_trans (le_max_left _ _) (ih (max c y.confidence)).1
      · intro x hx
        rcases List.mem_cons.mp hx with rfl | hx
        · exact le_trans (le_max_right _ _) (ih (max c x.confidence)).1
        · exact (ih (max c y.confidence)).2 x hx

theorem maxConf_mem (s : Signal) (rest : List Signal) :
    ∃ x ∈ s :: rest, maxConf s rest = x.confidence := by
  suffices h : ∀ (l : List Signal) (a : Signal),
      ∃ x ∈ a :: l, l.foldl (fun m y => max m y.confidence) a.confidence =
        x.confidence by
    exact h rest s
  intro l
  induction l with
  | nil => intro a; exact ⟨a, by simp, rfl⟩
  | cons y ys ih =>
      intro a
      simp only [List.foldl_cons]
      by_cases hay : a.confidence ≤ y.confidence
      · obtain ⟨x, hx, he⟩ := ih y
        rw [max_eq_right hay]
        refine ⟨x, ?_, he⟩
        rcases List.mem_cons.mp hx with rfl | hx
        · exact List.mem_cons_of_mem _ (List.mem_cons_self _ _)
        · exact List.mem_cons_of_mem _ (List.mem_cons_of_mem _ hx)
      · obtain ⟨x, hx, he⟩ := ih a
        rw [max_eq_left (le_of_not_le hay)]
        refine ⟨x, ?_, he⟩
        rcases List.mem_cons.mp hx with rfl | hx
        · exact List.mem_cons_self _ _
        · exact List.mem_cons_of_mem _ (List.mem_cons_of_mem _ hx)

theorem maxConf_perm {s t : Signal} {rest rest2 : List Signal}
    (h : List.Perm (s :: rest) (t :: rest2)) : maxConf s rest = maxConf t rest2 := by
  obtain ⟨x, hx, hxe⟩ := maxConf_mem s rest
  obtain ⟨y, hy, hye⟩ := maxConf_mem t rest2
  apply le_antisymm
  · rw [hxe]
    exact maxConf_le t rest2 x (h.mem_iff.mp hx)
  · rw [hye]
    exact maxConf_le s rest y (h.symm.mem_iff.mp hy)

theorem decide_spec (sens : String) (src : SignalSources) (s : Signal)
    (rest : List Signal)
    (h : collectSignals src.heuristicMatches src.urlCheckResults
      src.packageCheckResults = s :: rest) :
    (decide sens src).category = (topOf s rest).category ∧
    (decide sens src).severity = (topOf s rest).severity ∧
    (decide sens src).source = (topOf s rest).source ∧
    (decide sens src).matchedThreatId = (topOf s rest).threatId ∧
    (decide sens src).confidence = maxConf s rest ∧
    (decide sens src).decision =
      (if (topOf s rest).decision = Decision.deny ∧ maxConf s rest < threshold sens
       then Decision.ask else (topOf s rest).decision) := by
  have hhead := sortSignals_head s rest
  have hperm := sortSignals_perm (s :: rest)
  unfold decide
  rw [h]
  cases hs : sortSignals (s :: rest) with
  | nil => rw [hs] at hhead; simp at hhead
  | cons t r =>
      rw [hs] at hhead hperm
      have ht : t = topOf s rest := by simpa using hhead
      have hmc : maxConf t r = maxConf s rest := maxConf_perm hperm
      subst ht
      refine ⟨rfl, rfl, rfl, rfl, ?_, ?_⟩
      · simpa [verdictOfSorted] using hmc
      · simp only [verdictOfSorted]
        rw [hmc]

theorem decideJs_spec (sens : String) (src : SignalSources) (s : Signal)
    (rest : List Signal)
    (h : collectSignals src.heuristicMatches src.urlCheckResults
      src.packageCheckResults = s :: rest) :
    (decideJs sens src).category = (topOf s rest).category ∧
    (decideJs sens src).severity = (topOf s rest).severity ∧
    (decideJs sens src).source = (topOf s rest).source ∧
    (decideJs sens src).matchedThreatId = (topOf s rest).threatId ∧
    (decideJs sens src).confidence = maxConf s rest ∧
    (decideJs sens src).decision =
      (if (topOf s rest).decision = Decision.deny ∧
          jsLtNum (maxConf s rest) (thresholdJs sens) = true
       then Decision.ask else (topOf s rest).decision) := by
  have hhead := sortSignals_head s rest
  have hperm := sortSignals_perm (s :: rest)
  unfold decideJs
  rw [h]
  cases hs : sortSignals (s :: rest) with
  | nil => rw [hs] at hhead; simp at hhead
  | cons t r =>
      rw [hs] at hhead hperm
      have ht : t = topOf s rest := by simpa using hhead
      have hmc : maxConf t r = maxConf s rest := maxConf_perm hperm
      subst ht
      refine ⟨rfl, rfl, rfl, rfl, ?_, ?_⟩
      · simpa [verdictOfSortedJs] using hmc
      · simp only [verdictOfSortedJs]
        rw [hmc]

/-- Claim C1, counterexample: with a single block-action signal at
confidence 0.5 under the default "balanced" sensitivity, the top
(and only) signal's decision is deny, yet the final verdict decision is
ask — so the verdict does not always take its decision from the
highest-priority signal. -/
theorem claim_C1_counterexample :
    collectSignals (oneMatchSources "block" "high" 0.5).heuristicMatches
        (oneMatchSources "block" "high" 0.5).urlCheckResults
        (oneMatchSources "block" "high" 0.5).packageCheckResults =
      [heuristicSignal (mkMatch "block" "high" 0.5 "cmd")] ∧
    (heuristicSignal (mkMatch "block" "high" 0.5 "cmd")).decision =
      Decision.deny ∧
    (decide "balanced" (oneMatchSources "block" "high" 0.5)).decision =
      Decision.ask := by
  refine ⟨rfl, rfl, ?_⟩
  have hs := decide_spec "balanced" (oneMatchSources "block" "high" 0.5)
    (heuristicSignal (mkMatch "block" "high" 0.5 "cmd")) [] rfl
  have hc : (topOf (heuristicSignal (mkMatch "block" "high" 0.5 "cmd")) []).decision =
      Decision.deny ∧
      maxConf (heuristicSignal (mkMatch "block" "high" 0.5 "cmd")) [] <
        threshold "balanced" := by
    refine ⟨rfl, ?_⟩
    rw [show maxConf (heuristicSignal (mkMatch "block" "high" 0.5 "cmd")) [] =
        0.5 from rfl,
      show threshold "balanced" = 0.85 from rfl]
    norm_num
  rw [hs.2.2.2.2.2, if_pos hc]

/-- Claim C1 (amended): for every non-empty signal set, the verdict takes
category, severity, source and matchedThreatId from the earliest signal of
maximal priority under deny > ask > allow (stable for ties), and takes its
decision from that signal except that a top deny is downgraded to ask when
the maximum confidence across all signals is strictly below the active
threshold; the verdict confidence is the maximum confidence across all
signals; a deny signal at confidence 0.95 combined with an ask signal at
confidence 0.99 still yields deny. -/
theorem claim_C1_merge_amended (sens : String) (src : SignalSources)
    (s : Signal) (rest : List Signal)
    (h : collectSignals src.heuristicMatches src.urlCheckResults
      src.packageCheckResults = s :: rest) :
    (topOf s rest ∈ s :: rest ∧
     (∀ x ∈ s :: rest, DECISION_PRIORITY x.decision ≤
        DECISION_PRIORITY (topOf s rest).decision) ∧
     ∃ l1 l2, s :: rest = l1 ++ topOf s rest :: l2 ∧
       ∀ y ∈ l1, DECISION_PRIORITY y.decision <
         DECISION_PRIORITY (topOf s rest).decision) ∧
    (decide sens src).category = (topOf s rest).category ∧
    (decide sens src).severity = (topOf s rest).severity ∧
    (decide sens src).source = (topOf s rest).source ∧
    (decide sens src).matchedThreatId = (topOf s rest).threatId ∧
    ((decide sens src).decision =
      if (topOf s rest).decision = Decision.deny ∧ maxConf s rest < threshold sens
      then Decision.ask else (topOf s rest).decision) ∧
    (∀ x ∈ s :: rest, x.confidence ≤ (decide sens src).confidence) ∧
    (∃ x ∈ s :: rest, (decide sens src).confidence = x.confidence) ∧
    (decide "balanced" denyAskSources).decision = Decision.deny ∧
    (decide "balanced" denyAskSources).confidence = 0.99 := by
  obtain ⟨h1, h2, h3, h4, h5, h6⟩ := decide_spec sens src s rest h
  have hd := decide_spec "balanced" denyAskSources
    (heuristicSignal (mkMatch "block" "high" 0.95 "cmd1"))
    [heuristicSignal (mkMatch "require_approval" "high" 0.99 "cmd2")] rfl
  have hmax : maxConf (heuristicSignal (mkMatch "block" "high" 0.95 "cmd1"))
      [heuristicSignal (mkMatch "require_approval" "high" 0.99 "cmd2")] =
        max 0.95 0.99 := rfl
  have hnc : ¬(maxConf (heuristicSignal (mkMatch "block" "high" 0.95 "cmd1"))
      [heuristicSignal (mkMatch "require_approval" "high" 0.99 "cmd2")] <
        threshold "balanced") := by
    rw [hmax, max_eq_right (by norm_num : (0.95 : Rat) ≤ 0.99),
      show threshold "balanced" = 0.85 from rfl]
    norm_num
  refine ⟨⟨topOf_mem s rest, le_topOf s rest, topOf_first s rest⟩,
    h1, h2, h3, h4, h6, ?_, ?_, ?_, ?_⟩
  · intro x hx
    rw [h5]
    exact maxConf_le s rest x hx
  · obtain ⟨x, hx, he⟩ := maxConf_mem s rest
    exact ⟨x, hx, by rw [h5, he]⟩
  · rw [hd.2.2.2.2.2, if_neg (fun hcon => hnc hcon.2)]
    rfl
  · rw [hd.2.2.2.2.1, hmax, max_eq_right (by norm_num : (0.95 : Rat) ≤ 0.99)]

theorem claim_C1_merge_amended_witness :
    (decide "balanced" denyAskSources).category = "tool" ∧
    (decide "balanced" denyAskSources).confidence = 0.99 := by
  have h := claim_C1_merge_amended "balanced" denyAskSources
    (heuristicSignal (mkMatch "block" "high" 0.95 "cmd1"))
    [heuristicSignal (mkMatch "require_approval" "high" 0.99 "cmd2")] rfl
  refine ⟨?_, h.2.2.2.2.2.2.2.2.2⟩
  rw [h.2.1]
  rfl

/-- Claim C2, counterexample: under the unrecognized preset name "toString"
the claimed balanced fallback does not happen — the lookup returns the
inherited `Object.prototype.toString`, so the `?? 0.85` default never fires,
the softening comparison is always false, and a block signal at confidence
0.5 stays deny, while under "balanced" the same signal is softened to ask. -/
theorem claim_C2_counterexample :
    thresholdJs "toString" = JsVal.protoMember "toString" ∧
    (decideJs "toString" (oneMatchSources "block" "high" 0.5)).decision =
      Decision.deny ∧
    (decideJs "balanced" (oneMatchSources "block" "high" 0.5)).decision =
      Decision.ask := by
  refine ⟨rfl, ?_, ?_⟩
  · have hs := decideJs_spec "toString" (oneMatchSources "block" "high" 0.5)
      (heuristicSignal (mkMatch "block" "high" 0.5 "cmd")) [] rfl
    have hne : ¬((topOf (heuristicSignal (mkMatch "block" "high" 0.5 "cmd")) []).decision =
        Decision.deny ∧
        jsLtNum (maxConf (heuristicSignal (mkMatch "block" "high" 0.5 "cmd")) [])
          (thresholdJs "toString") = true) := by
      rintro ⟨-, hc⟩
      rw [show jsLtNum (maxConf (heuristicSignal (mkMatch "block" "high" 0.5 "cmd")) [])
          (thresholdJs "toString") = false from rfl] at hc
      exact Bool.noConfusion hc
    rw [hs.2.2.2.2.2, if_neg hne]
    rfl
  · have hs := decideJs_spec "balanced" (oneMatchSources "block" "high" 0.5)
      (heuristicSignal (mkMatch "block" "high" 0.5 "cmd")) [] rfl
    have hc : (topOf (heuristicSignal (mkMatch "block" "high" 0.5 "cmd")) []).decision =
        Decision.deny ∧
        jsLtNum (maxConf (heuristicSignal (mkMatch "block" "high" 0.5 "cmd")) [])
          (thresholdJs "balanced") = true := by
      refine ⟨rfl, ?_⟩
      rw [show maxConf (heuristicSignal (mkMatch "block" "high" 0.5 "cmd")) [] =
          0.5 from rfl,
        show thresholdJs "balanced" = JsVal.val 0.85 from rfl]
      simp only [jsLtNum, decide_eq_true_eq]
      norm_num
    rw [hs.2.2.2.2.2, if_pos hc]

/-- Claim C2 (amended): the engine downgrades a top deny decision to ask
exactly when the maximum confidence across all signals is strictly below the
active numeric threshold (paranoid 0.70, balanced 0.85 default, relaxed
0.95), keeping everything else from the top signal, and never softening an
ask; an unrecognized preset name falls back to balanced 0.85 unless it names
an `Object.prototype` member, in which case the lookup returns the inherited
member, the `?? 0.85` default does not fire, the softening comparison is
always false, and a deny is never softened; under "balanced" a block-action
match at confidence 0.85 yields deny and at 0.84 yields ask. -/
theorem claim_C2_threshold_softening_amended :
    thresholdJs "paranoid" = JsVal.val 0.7 ∧
    thresholdJs "balanced" = JsVal.val 0.85 ∧
    thresholdJs "relaxed" = JsVal.val 0.95 ∧
    (∀ s : String, s ≠ "paranoid" → s ≠ "balanced" → s ≠ "relaxed" →
      s ∉ OBJECT_PROTO_KEYS → thresholdJs s = JsVal.val 0.85) ∧
    (∀ s : String, s ∈ OBJECT_PROTO_KEYS →
      thresholdJs s = JsVal.protoMember s ∧
      ∀ m : Rat, jsLtNum m (thresholdJs s) = false) ∧
    (∀ (sens : String) (src : SignalSources) (s : Signal) (rest : List Signal),
      collectSignals src.heuristicMatches src.urlCheckResults
        src.packageCheckResults = s :: rest →
      (((decideJs sens src).decision = Decision.ask ∧
          (topOf s rest).decision = Decision.deny) ↔
        ((topOf s rest).decision = Decision.deny ∧
          jsLtNum (maxConf s rest) (thresholdJs sens) = true)) ∧
      ((topOf s rest).decision = Decision.deny →
        jsLtNum (maxConf s rest) (thresholdJs sens) = true →
        (decideJs sens src).decision = Decision.ask ∧
        (decideJs sens src).category = (topOf s rest).category ∧
        (decideJs sens src).severity = (topOf s rest).severity ∧
        (decideJs sens src).source = (topOf s rest).source ∧
        (decideJs sens src).matchedThreatId = (topOf s rest).threatId) ∧
      ((topOf s rest).decision = Decision.ask →
        (decideJs sens src).decision = Decision.ask)) ∧
    (decideJs "balanced" (oneMatchSources "block" "high" 0.85)).decision =
      Decision.deny ∧
    (decideJs "balanced" (oneMatchSources "block" "high" 0.84)).decision =
      Decision.ask := by
  refine ⟨rfl, rfl, rfl, ?_, ?_, ?_, ?_, ?_⟩
  · intro s h1 h2 h3 h4
    simp [thresholdJs, jsGetD, SENSITIVITY_THRESHOLDS, CONFIDENCE_THRESHOLD,
      h1, h2, h3, h4]
  · intro s hs
    simp only [OBJECT_PROTO_KEYS, List.mem_cons, List.not_mem_nil,
      or_false] at hs
    rcases hs with rfl | rfl | rfl | rfl | rfl | rfl | rfl | rfl | rfl |
      rfl | rfl | rfl <;> exact ⟨rfl, fun m => rfl⟩
  · intro sens src s rest h
    obtain ⟨h1, h2, h3, h4, h5, h6⟩ := decideJs_spec sens src s rest h
    refine ⟨?_, ?_, ?_⟩
    · constructor
      · rintro ⟨hask, hdeny⟩
        refine ⟨hdeny, ?_⟩
        by_contra hlt
        rw [h6, if_neg (by tauto)] at hask
        rw [hdeny] at hask
        exact Decision.noConfusion hask
      · rintro ⟨hdeny, hlt⟩
        exact ⟨by rw [h6, if_pos ⟨hdeny, hlt⟩], hdeny⟩
    · intro hdeny hlt
      exact ⟨by rw [h6, if_pos ⟨hdeny, hlt⟩], h1, h2, h3, h4⟩
    · intro hask
      rw [h6, if_neg (by rw [hask]; rintro ⟨hc, -⟩; exact Decision.noConfusion hc),
        hask]
  · have h85 := decideJs_spec "balanced" (oneMatchSources "block" "high" 0.85)
      (heuristicSignal (mkMatch "block" "high" 0.85 "cmd")) [] rfl
    have hn : ¬((topOf (heuristicSignal (mkMatch "block" "high" 0.85 "cmd")) []).decision =
        Decision.deny ∧
        jsLtNum (maxConf (heuristicSignal (mkMatch "block" "high" 0.85 "cmd")) [])
          (thresholdJs "balanced") = true) := by
      rintro ⟨-, hlt⟩
      rw [show maxConf (heuristicSignal (mkMatch "block" "high" 0.85 "cmd")) [] =
          0.85 from rfl,
        show thresholdJs "balanced" = JsVal.val 0.85 from rfl] at hlt
      simp only [jsLtNum, decide_eq_true_eq] at hlt
      exact absurd hlt (by norm_num)
    rw [h85.2.2.2.2.2, if_neg hn]
    rfl
  · have h84 := decideJs_spec "balanced" (oneMatchSources "block" "high" 0.84)
      (heuristicSignal (mkMatch "block" "high" 0.84 "cmd")) [] rfl
    have hc : (topOf (heuristicSignal (mkMatch "block" "high" 0.84 "cmd")) []).decision =
        Decision.deny ∧
        jsLtNum (maxConf (heuristicSignal (mkMatch "block" "high" 0.84 "cmd")) [])
          (thresholdJs "balanced") = true := by
      refine ⟨rfl, ?_⟩
      rw [show maxConf (heuristicSignal (mkMatch "block" "high" 0.84 "cmd")) [] =
          0.84 from rfl,
        show thresholdJs "balanced" = JsVal.val 0.85 from rfl]
      simp only [jsLtNum, decide_eq_true_eq]
      norm_num
    rw [h84.2.2.2.2.2, if_pos hc]

theorem claim_C2_threshold_softening_amended_witness :
    thresholdJs "weird" = JsVal.val 0.85 ∧
    jsLtNum 0.5 (thresholdJs "valueOf") = false ∧
    (decideJs "relaxed" (oneMatchSources "block" "high" 0.9)).decision =
      Decision.ask := by
  have h := claim_C2_threshold_softening_amended
  refine ⟨h.2.2.2.1 "weird" (by decide) (by decide) (by decide) (by decide),
    (h.2.2.2.2.1 "valueOf" (by decide)).2 0.5, ?_⟩
  have h5 := h.2.2.2.2.2.1 "relaxed" (oneMatchSources "block" "high" 0.9)
    (heuristicSignal (mkMatch "block" "high" 0.9 "cmd")) [] rfl
  refine (h5.2.1 rfl ?_).1
  rw [show maxConf (heuristicSignal (mkMatch "block" "high" 0.9 "cmd")) [] =
      0.9 from rfl,
    show thresholdJs "relaxed" = JsVal.val 0.95 from rfl]
  simp only [jsLtNum, decide_eq_true_eq]
  norm_num

/-- Claim C10, counterexample: a heuristic match whose threat action is the
`Object.prototype` member name "toString" does not yield an ask signal — the
lookup returns the inherited member, the `?? "ask"` default never fires, and
the resulting decision sorts at merge priority 0, the allow level, strictly
below an ask signal; likewise severity "toString" does not map to warning.
A malformed rule can therefore make the engine less cautious. -/
theorem claim_C10_counterexample :
    (heuristicSignalJs (mkMatch "toString" "high" 0.9 "x")).decision =
      JsVal.protoMember "toString" ∧
    ¬((heuristicSignalJs (mkMatch "toString" "high" 0.9 "x")).decision =
      JsVal.val Decision.ask) ∧
    DECISION_PRIORITY_JS
      (heuristicSignalJs (mkMatch "toString" "high" 0.9 "x")).decision = 0 ∧
    DECISION_PRIORITY_JS (JsVal.val Decision.allow) = 0 ∧
    DECISION_PRIORITY_JS (JsVal.val Decision.ask) = 1 ∧
    (heuristicSignalJs (mkMatch "block" "toString" 0.9 "x")).severity =
      JsVal.protoMember "toString" :=
  ⟨rfl, by decide, rfl, rfl, rfl, rfl⟩

/-- Claim C10 (amended): a heuristic match whose threat action is outside
{block, require_approval, log} yields an ask signal provided the action is
not an `Object.prototype` member name, and likewise an out-of-range severity
maps to warning only for non-member names; an action naming an
`Object.prototype` member yields the inherited member as the decision, which
sorts at merge priority 0 (the allow level) — so a malformed rule that
reaches matching is defaulted conservatively except for the twelve
`Object.prototype` member names, which make the engine less cautious. -/
theorem claim_C10_conservative_defaults_amended (hm : List HeuristicMatch)
    (urls : List UrlCheckResult) (pkgs : Option (List PackageCheckResult))
    (m : HeuristicMatch) (hmem : m ∈ hm) :
    heuristicSignalJs m ∈ collectSignalsJs hm urls pkgs ∧
    (m.threat.action ∉ ["block", "require_approval", "log"] →
      m.threat.action ∉ OBJECT_PROTO_KEYS →
      (heuristicSignalJs m).decision = JsVal.val Decision.ask) ∧
    (m.threat.action ∉ ["block", "require_approval", "log"] →
      m.threat.action ∈ OBJECT_PROTO_KEYS →
      (heuristicSignalJs m).decision = JsVal.protoMember m.threat.action ∧
      DECISION_PRIORITY_JS (heuristicSignalJs m).decision = 0) ∧
    (m.threat.severity ∉ ["critical", "high", "medium", "low"] →
      m.threat.severity ∉ OBJECT_PROTO_KEYS →
      (heuristicSignalJs m).severity = JsVal.val VerdictSeverity.warning) ∧
    (m.threat.severity ∉ ["critical", "high", "medium", "low"] →
      m.threat.severity ∈ OBJECT_PROTO_KEYS →
      (heuristicSignalJs m).severity = JsVal.protoMember m.threat.severity) := by
  refine ⟨?_, ?_, ?_, ?_, ?_⟩
  · unfold collectSignalsJs
    exact List.mem_append_left _ (List.mem_map_of_mem _ hmem)
  · intro hact hproto
    simp only [List.mem_cons, List.not_mem_nil, or_false, not_or] at hact
    obtain ⟨ha1, ha2, ha3⟩ := hact
    simp [heuristicSignalJs, jsGetD, ACTION_MAP, ha1, ha2, ha3, hproto]
  · intro hact hproto
    simp only [List.mem_cons, List.not_mem_nil, or_false, not_or] at hact
    obtain ⟨ha1, ha2, ha3⟩ := hact
    have hd : (heuristicSignalJs m).decision = JsVal.protoMember m.threat.action := by
      simp [heuristicSignalJs, jsGetD, ACTION_MAP, ha1, ha2, ha3, hproto]
    exact ⟨hd, by rw [hd]; rfl⟩
  · intro hsev hproto
    simp only [List.mem_cons, List.not_mem_nil, or_false, not_or] at hsev
    obtain ⟨hs1, hs2, hs3, hs4⟩ := hsev
    simp [heuristicSignalJs, jsGetD, SEVERITY_MAP, hs1, hs2, hs3, hs4, hproto]
  · intro hsev hproto
    simp only [List.mem_cons, List.not_mem_nil, or_false, not_or] at hsev
    obtain ⟨hs1, hs2, hs3, hs4⟩ := hsev
    simp [heuristicSignalJs, jsGetD, SEVERITY_MAP, hs1, hs2, hs3, hs4, hproto]

theorem claim_C10_conservative_defaults_amended_witness :
    (heuristicSignalJs (mkMatch "quarantine" "severe" 0.9 "x")).decision =
      JsVal.val Decision.ask ∧
    (heuristicSignalJs (mkMatch "quarantine" "severe" 0.9 "x")).severity =
      JsVal.val VerdictSeverity.warning := by
  have h := claim_C10_conservative_defaults_amended
    [mkMatch "quarantine" "severe" 0.9 "x"] [] none
    (mkMatch "quarantine" "severe" 0.9 "x") (List.mem_cons_self _ _)
  exact ⟨h.2.1 (by decide) (by decide), h.2.2.2.1 (by decide) (by decide)⟩

end DecisionEngine

theorem mem_data_infix_joinComma (l : List String) (x : String) (hx : x ∈ l) :
    x.data <:+: (joinComma l).data := by
  induction l with
  | nil => cases hx
  | cons a t ih =>
      cases t with
      | nil =>
          have : x = a := by simpa using hx
          subst this
          exact List.infix_refl _
      | cons b u =>
          rcases List.mem_cons.mp hx with rfl | hx2
          · show x.data <:+: (x ++ ", " ++ joinComma (b :: u)).data
            rw [String.data_append, String.data_append]
            exact ((List.prefix_append x.data ", ".data).isInfix).trans
              ((List.prefix_append (x.data ++ ", ".data) _).isInfix)
          · refine (ih hx2).trans ?_
            show (joinComma (b :: u)).data <:+: (a ++ ", " ++ joinComma (b :: u)).data
            rw [String.data_append, String.data_append]
            exact (List.suffix_append _ _).isInfix

namespace RegistryClient

/-- Claim C6: the registry client returns null (with one network call) on a
404, throws on any other non-2xx status and on a transport error, and
returns null with zero network calls for a name failing the
registry-specific grammar — for both the npm and the PyPI lookup. -/
theorem claim_C6_registry_client :
    (∀ name fetch, npmNameOk name = false →
      getNpmMetadata name fetch = (Except.ok none, 0)) ∧
    (∀ name parsed, npmNameOk name = true →
      getNpmMetadata name (.resp 404 parsed) = (Except.ok none, 1)) ∧
    (∀ name status parsed, npmNameOk name = true → status ≠ 404 →
      ¬(200 ≤ status ∧ status ≤ 299) →
      getNpmMetadata name (.resp status parsed) = (Except.error (), 1)) ∧
    (∀ name, npmNameOk name = true →
      getNpmMetadata name .throwErr = (Except.error (), 1)) ∧
    (∀ name fetch, pypiNameOk name = false →
      getPypiMetadata name fetch = (Except.ok none, 0)) ∧
    (∀ name parsed, pypiNameOk name = true →
      getPypiMetadata name (.resp 404 parsed) = (Except.ok none, 1)) ∧
    (∀ name status parsed, pypiNameOk name = true → status ≠ 404 →
      ¬(200 ≤ status ∧ status ≤ 299) →
      getPypiMetadata name (.resp status parsed) = (Except.error (), 1)) ∧
    (∀ name, pypiNameOk name = true →
      getPypiMetadata name .throwErr = (Except.error (), 1)) := by
  refine ⟨?_, ?_, ?_, ?_, ?_, ?_, ?_, ?_⟩ <;>
    intro name
  · intro fetch h
    simp [getNpmMetadata, h]
  · intro parsed h
    simp [getNpmMetadata, h]
  · intro status parsed h h404 hok
    simp [getNpmMetadata, h, h404, hok]
  · intro h
    simp [getNpmMetadata, h]
  · intro fetch h
    simp [getPypiMetadata, h]
  · intro parsed h
    simp [getPypiMetadata, h]
  · intro status parsed h h404 hok
    simp [getPypiMetadata, h, h404, hok]
  · intro h
    simp [getPypiMetadata, h]

theorem claim_C6_registry_client_witness :
    getNpmMetadata "Lodash" (.resp 500 none) = (Except.ok none, 0) ∧
    getNpmMetadata "lodash" (.resp 404 none) = (Except.ok none, 1) ∧
    getNpmMetadata "lodash" (.resp 500 none) = (Except.error (), 1) ∧
    getNpmMetadata "lodash" .throwErr = (Except.error (), 1) ∧
    getPypiMetadata "bad-" .throwErr = (Except.ok none, 0) ∧
    getPypiMetadata "requests" (.resp 404 none) = (Except.ok none, 1) ∧
    getPypiMetadata "requests" (.resp 503 none) = (Except.error (), 1) ∧
    getPypiMetadata "requests" .throwErr = (Except.error (), 1) := by
  have h := claim_C6_registry_client
  exact ⟨h.1 "Lodash" _ (by decide), h.2.1 "lodash" none (by decide),
    h.2.2.1 "lodash" 500 none (by decide) (by decide) (by decide),
    h.2.2.2.1 "lodash" (by decide), h.2.2.2.2.1 "bad-" _ (by decide),
    h.2.2.2.2.2.1 "requests" none (by decide),
    h.2.2.2.2.2.2.1 "requests" 503 none (by decide) (by decide) (by decide),
    h.2.2.2.2.2.2.2 "requests" (by decide)⟩

end RegistryClient

namespace PackageChecker

theorem checkSingle_age_branch (fce : Bool) (pkg : PackageCheckInput)
    (m : PackageMetadata) (fc : FileCheckOutcome) (now : Int)
    (h1 : ¬(¬(m.requestedVersionFound = true) ∧ jsTruthy pkg.version = true))
    (h2 : malwareBranchFires fce m fc = false) :
    (checkSinglePackage fce pkg (.ret (some m)) fc now).1 =
      ageAndClean pkg m now := by
  simp only [checkSinglePackage]
  rw [if_neg h1]
  by_cases hc2 : m.latestHash ≠ "" ∧ fce = true ∧ m.hashAlgorithm = "sha256"
  · rw [if_pos hc2]
    cases fc with
    | throwErr => rfl
    | ret r =>
        cases r with
        | none => rfl
        | some fr =>
            have hsev : ¬(toUpper fr.severity = "SEVERITY_MALWARE") := by
              intro hs
              have hfire : malwareBranchFires fce m (.ret (some fr)) = true := by
                rw [malwareBranchFires]
                simp [hc2.1, hc2.2.1, hc2.2.2, hs]
              rw [h2] at hfire
              exact Bool.noConfusion hfire
            simp only []
            rw [if_neg hsev]
  · rw [if_neg hc2]

theorem ageAndClean_verdict (pkg : PackageCheckInput) (m : PackageMetadata)
    (now : Int) :
    (ageAndClean pkg m now).verdict = PkgVerdict.suspiciousAge ∨
    (ageAndClean pkg m now).verdict = PkgVerdict.clean := by
  rcases hfd : m.firstReleaseDate with _ | t
  · right
    simp [ageAndClean, hfd]
  · simp only [ageAndClean, hfd, Option.map_some']
    by_cases hlt : ((now - t : Int) : Rat) / 86400000 < SUSPICIOUS_AGE_DAYS
    · left
      rw [if_pos hlt]
    · right
      rw [if_neg hlt]

/-- Claim C3: scoped names are answered clean/1.0 with zero network calls
(independently of the network oracles); a registry transport failure yields
unknown/0.6; confirmed registry absence yields not-found/0.95; a present
package missing the specifically requested version yields not-found/0.9; a
file-reputation severity that upper-cases to SEVERITY_MALWARE (reached only
when a non-empty SHA-256 hash was returned and file checking is enabled)
yields malicious/1.0 with each detection name inside the detail text; a
first release younger than 7 days yields suspicious-age/0.75; otherwise the
package is clean/1.0. -/
theorem claim_C3_package_checker :
    (∀ (fce : Bool) (pkg : PackageCheckInput) (reg : RegistryOutcome)
        (fc : FileCheckOutcome) (now : Int), jsStartsWith pkg.name "@" = true →
      checkPackages fce [(pkg, reg, fc)] now = ([scopedCleanResult pkg], 0) ∧
      (scopedCleanResult pkg).verdict = PkgVerdict.clean ∧
      (scopedCleanResult pkg).confidence = 1.0) ∧
    (∀ fce packages now,
      (checkPackages fce packages now).2 =
        (checkPackages fce
          (packages.filter (fun p => !jsStartsWith p.1.name "@")) now).2) ∧
    (∀ fce pkg fc now,
      (checkSinglePackage fce pkg .throwErr fc now).1.verdict =
        PkgVerdict.unknown ∧
      (checkSinglePackage fce pkg .throwErr fc now).1.confidence = 0.6) ∧
    (∀ fce pkg fc now,
      (checkSinglePackage fce pkg (.ret none) fc now).1.verdict =
        PkgVerdict.notFound ∧
      (checkSinglePackage fce pkg (.ret none) fc now).1.confidence = 0.95) ∧
    (∀ fce pkg m fc now, m.requestedVersionFound = false →
        jsTruthy pkg.version = true →
      (checkSinglePackage fce pkg (.ret (some m)) fc now).1.verdict =
        PkgVerdict.notFound ∧
      (checkSinglePackage fce pkg (.ret (some m)) fc now).1.confidence = 0.9) ∧
    (∀ pkg m fr now,
        ¬(¬(m.requestedVersionFound = true) ∧ jsTruthy pkg.version = true) →
        m.latestHash ≠ "" → m.hashAlgorithm = "sha256" →
        toUpper fr.severity = "SEVERITY_MALWARE" →
      (checkSinglePackage true pkg (.ret (some m)) (.ret (some fr)) now).1.verdict =
        PkgVerdict.malicious ∧
      (checkSinglePackage true pkg (.ret (some m)) (.ret (some fr)) now).1.confidence =
        1.0 ∧
      (checkSinglePackage true pkg (.ret (some m)) (.ret (some fr)) now).1.fileCheckSeverity =
        some "SEVERITY_MALWARE" ∧
      ∀ nm ∈ fr.detectionNames, nm.data <:+:
        ((checkSinglePackage true pkg (.ret (some m)) (.ret (some fr)) now).1.details).data) ∧
    (∀ fce pkg reg fc now,
      (checkSinglePackage fce pkg reg fc now).1.verdict = PkgVerdict.malicious →
      ∃ m, reg = .ret (some m) ∧ m.hashAlgorithm = "sha256" ∧
        m.latestHash ≠ "" ∧ fce = true ∧
        ∃ fr, fc = .ret (some fr) ∧ toUpper fr.severity = "SEVERITY_MALWARE") ∧
    (∀ fce pkg m fc now t,
        ¬(¬(m.requestedVersionFound = true) ∧ jsTruthy pkg.version = true) →
        malwareBranchFires fce m fc = false →
        m.firstReleaseDate = some t → ((now - t : Int) : Rat) / 86400000 < 7 →
      (checkSinglePackage fce pkg (.ret (some m)) fc now).1.verdict =
        PkgVerdict.suspiciousAge ∧
      (checkSinglePackage fce pkg (.ret (some m)) fc now).1.confidence = 0.75) ∧
    (∀ fce pkg m fc now,
        ¬(¬(m.requestedVersionFound = true) ∧ jsTruthy pkg.version = true) →
        malwareBranchFires fce m fc = false →
        (m.firstReleaseDate = none ∨ ∃ t, m.firstReleaseDate = some t ∧
          ¬(((now - t : Int) : Rat) / 86400000 < 7)) →
      (checkSinglePackage fce pkg (.ret (some m)) fc now).1.verdict =
        PkgVerdict.clean ∧
      (checkSinglePackage fce pkg (.ret (some m)) fc now).1.confidence = 1.0) := by
  refine ⟨?_, ?_, ?_, ?_, ?_, ?_, ?_, ?_, ?_⟩
  · intro fce pkg reg fc now h
    refine ⟨?_, rfl, rfl⟩
    simp [checkPackages, h]
  · intro fce packages now
    simp only [checkPackages, List.filter_filter, Bool.and_self]
  · intro fce pkg fc now
    exact ⟨rfl, rfl⟩
  · intro fce pkg fc now
    exact ⟨rfl, rfl⟩
  · intro fce pkg m fc now hnf ht
    have hc : ¬(m.requestedVersionFound = true) ∧ jsTruthy pkg.version = true :=
      ⟨by simp [hnf], ht⟩
    simp only [checkSinglePackage]
    rw [if_pos hc]
    exact ⟨rfl, rfl⟩
  · intro pkg m fr now h1 hl ha hsev
    have hc2 : m.latestHash ≠ "" ∧ True ∧
        m.hashAlgorithm = "sha256" := ⟨hl, trivial, ha⟩
    simp only [checkSinglePackage]
    rw [if_neg h1, if_pos hc2, if_pos hsev]
    refine ⟨rfl, rfl, by rw [hsev], ?_⟩
    intro nm hnm
    have hne : fr.detectionNames ≠ [] := List.ne_nil_of_mem hnm
    rw [if_pos hne]
    refine (mem_data_infix_joinComma _ _ hnm).trans ?_
    rw [String.data_append, String.data_append]
    exact List.infix_append _ _ _
  · intro fce pkg reg fc now hmal
    cases reg with
    | throwErr => exact absurd hmal (by simp [checkSinglePackage])
    | ret om =>
        cases om with
        | none => exact absurd hmal (by simp [checkSinglePackage])
        | some m =>
            by_cases h1 : ¬(m.requestedVersionFound = true) ∧
                jsTruthy pkg.version = true
            · have hnf : (checkSinglePackage fce pkg (.ret (some m)) fc now).1.verdict =
                  PkgVerdict.notFound := by
                simp only [checkSinglePackage]
                rw [if_pos h1]
              rw [hnf] at hmal
              exact PkgVerdict.noConfusion hmal
            · by_cases hfire : malwareBranchFires fce m fc = true
              · cases fc with
                | throwErr => simp [malwareBranchFires] at hfire
                | ret r =>
                    cases r with
                    | none => simp [malwareBranchFires] at hfire
                    | some fr =>
                        simp only [malwareBranchFires, Bool.and_eq_true,
                          decide_eq_true_eq] at hfire
                        obtain ⟨hc2, hsev⟩ := hfire
                        exact ⟨m, rfl, hc2.2.2, hc2.1, hc2.2.1, fr, rfl, hsev⟩
              · have hfalse : malwareBranchFires fce m fc = false :=
                  Bool.eq_false_iff.mpr hfire
                have hb := checkSingle_age_branch fce pkg m fc now h1 hfalse
                rw [hb] at hmal
                rcases ageAndClean_verdict pkg m now with hv | hv <;>
                  rw [hmal] at hv <;> exact PkgVerdict.noConfusion hv
  · intro fce pkg m fc now t h1 h2 hfd hlt
    have hb := checkSingle_age_branch fce pkg m fc now h1 h2
    rw [hb]
    have h7 : ((now - t : Int) : Rat) / 86400000 < SUSPICIOUS_AGE_DAYS := hlt
    constructor <;>
      · simp only [ageAndClean, hfd, Option.map_some']
        rw [if_pos h7]
  · intro fce pkg m fc now h1 h2 hage
    have hb := checkSingle_age_branch fce pkg m fc now h1 h2
    rw [hb]
    rcases hage with hnone | ⟨t, hfd, hge⟩
    · constructor <;> simp [ageAndClean, hnone]
    · have h7 : ¬(((now - t : Int) : Rat) / 86400000 < SUSPICIOUS_AGE_DAYS) := hge
      constructor <;>
        · simp only [ageAndClean, hfd, Option.map_some']
          rw [if_neg h7]

theorem claim_C3_package_checker_witness :
    checkPackages true
      [({ name := "@scope/pkg", registry := "npm", version := none },
        RegistryOutcome.throwErr, FileCheckOutcome.throwErr)] 0 =
      ([scopedCleanResult
        { name := "@scope/pkg", registry := "npm", version := none }], 0) ∧
    (checkSinglePackage true { name := "mal", registry := "npm", version := none }
      (.ret (some malMetadata)) (.ret (some malFileResult)) 0).1.verdict =
      PkgVerdict.malicious ∧
    (checkSinglePackage true { name := "newpkg", registry := "pypi", version := none }
      (.ret (some youngMetadata))
      (.ret none) 172800000).1.verdict = PkgVerdict.suspiciousAge := by
  have h := claim_C3_package_checker
  refine ⟨(h.1 true _ _ _ 0 (by decide)).1, ?_, ?_⟩
  · exact (h.2.2.2.2.2.1 _ _ _ 0 (by decide) (by decide) (by decide) (by decide)).1
  · exact (h.2.2.2.2.2.2.2.1 _ _ _ _ 172800000 0 (by decide) (by decide) rfl
      (by norm_num)).1

end PackageChecker

namespace ThreatLoader

theorem insertFile_perm (x : String × FileData) (l : List (String × FileData)) :
    List.Perm (insertFile x l) (x :: l) := by
  induction l with
  | nil => simp [insertFile]
  | cons y ys ih =>
      simp only [insertFile]
      split
      · exact List.Perm.refl _
      · exact (ih.cons y).trans (List.Perm.swap x y ys)

theorem sortFiles_perm (l : List (String × FileData)) :
    List.Perm (sortFiles l) l := by
  suffices h : ∀ (l acc : List (String × FileData)),
      List.Perm (l.foldl (fun acc x => insertFile x acc) acc) (acc ++ l) by
    simpa using h l []
  intro l
  induction l with
  | nil => intro acc; simp
  | cons x xs ih =>
      intro acc
      have h1 := ih (insertFile x acc)
      have h2 := (insertFile_perm x acc).append_right xs
      exact h1.trans (h2.trans (@List.perm_middle _ x acc xs).symm)

theorem entryThreats_eq_nil (now : Int) (e : YamlEntry)
    (h : badEntry now e = true) : entryThreats now e = [] := by
  cases e with
  | nonObject => rfl
  | record r =>
      simp only [entryThreats]
      by_cases h1 : missingFields r.keys ≠ []
      · rw [if_pos h1]
      · rw [if_neg h1]
        by_cases h2 : r.revokedTrue = true
        · rw [if_pos h2]
        · rw [if_neg h2]
          by_cases h3 : isExpired r now = true
          · rw [if_pos h3]
          · rw [if_neg h3]
            simp only [badEntry, Bool.or_eq_true, decide_eq_true_eq] at h
            rcases h with ((ha | hb) | hc) | hd
            · exact absurd ha h1
            · exact absurd hb h2
            · exact absurd hc h3
            · rw [if_pos hd]

/-- Claim C5: a missing or unreadable rule directory loads as the empty
threat list; an unreadable, unparsable or non-list file contributes
nothing; every loaded threat comes from a record of a `.yaml` file that
has all required fields, is not revoked, is not expired at load time, and
compiled its pattern; and deleting any skipped record (non-object, missing
fields, revoked, expired, invalid pattern) from a file leaves the loaded
set unchanged. -/
theorem claim_C5_threat_loader :
    (∀ now : Int, loadThreats none now = []) ∧
    (∀ now : Int, fileThreats now .readError = [] ∧
      fileThreats now .parseError = [] ∧ fileThreats now .notList = []) ∧
    (∀ (listing : List (String × FileData)) (now : Int) (t : Threat),
      t ∈ loadThreats (some listing) now →
      ∃ fn fd r l, (fn, fd) ∈ listing ∧ jsEndsWith fn ".yaml" = true ∧
        fd = FileData.entries l ∧ YamlEntry.record r ∈ l ∧
        missingFields r.keys = [] ∧ r.revokedTrue = false ∧
        isExpired r now = false ∧ r.patternValid = true ∧
        t = mkLoadedThreat r ∧ t.revoked = false) ∧
    (∀ (now : Int) (pre post : List YamlEntry) (e : YamlEntry),
      badEntry now e = true →
      fileThreats now (.entries (pre ++ e :: post)) =
        fileThreats now (.entries (pre ++ post))) := by
  refine ⟨fun now => rfl, fun now => ⟨rfl, rfl, rfl⟩, ?_, ?_⟩
  · intro listing now t ht
    simp only [loadThreats] at ht
    rw [List.mem_flatMap] at ht
    obtain ⟨f, hf, htf⟩ := ht
    have hf2 : f ∈ listing.filter (fun f => jsEndsWith f.1 ".yaml") :=
      (sortFiles_perm _).mem_iff.mp hf
    rw [List.mem_filter] at hf2
    obtain ⟨hmem, hyaml⟩ := hf2
    obtain ⟨fn, fd⟩ := f
    cases fd with
    | readError => cases htf
    | parseError => cases htf
    | notList => cases htf
    | entries l =>
        simp only [fileThreats] at htf
        rw [List.mem_flatMap] at htf
        obtain ⟨e, he, hte⟩ := htf
        cases e with
        | nonObject => cases hte
        | record r =>
            simp only [entryThreats] at hte
            by_cases h1 : missingFields r.keys ≠ []
            · rw [if_pos h1] at hte; cases hte
            · rw [if_neg h1] at hte
              by_cases h2 : r.revokedTrue = true
              · rw [if_pos h2] at hte; cases hte
              · rw [if_neg h2] at hte
                by_cases h3 : isExpired r now = true
                · rw [if_pos h3] at hte; cases hte
                · rw [if_neg h3] at hte
                  by_cases h4 : (!r.patternValid) = true
                  · rw [if_pos h4] at hte; cases hte
                  · rw [if_neg h4] at hte
                    have hte2 : t = mkLoadedThreat r := by simpa using hte
                    refine ⟨fn, .entries l, r, l, hmem, hyaml, rfl, he,
                      not_not.mp h1, ?_, ?_, ?_, hte2, by rw [hte2]; rfl⟩
                    · simpa using h2
                    · simpa using h3
                    · simpa using h4
  · intro now pre post e hbad
    simp only [fileThreats]
    rw [List.flatMap_append, List.flatMap_append, List.flatMap_cons,
      entryThreats_eq_nil now e hbad, List.nil_append]

theorem claim_C5_threat_loader_witness :
    loadThreats none 0 = [] ∧
    fileThreats 0 (.entries ([.record goodRecord] ++
        YamlEntry.record revokedRecord :: [])) =
      fileThreats 0 (.entries ([.record goodRecord] ++ [])) ∧
    ∃ fn fd r l,
      (fn, fd) ∈ [("rules.yaml", FileData.entries [.record goodRecord])] ∧
      jsEndsWith fn ".yaml" = true ∧ fd = FileData.entries l ∧
      YamlEntry.record r ∈ l ∧ missingFields r.keys = [] ∧
      r.revokedTrue = false ∧ isExpired r 0 = false ∧ r.patternValid = true ∧
      goodThreat = mkLoadedThreat r ∧ goodThreat.revoked = false := by
  have h := claim_C5_threat_loader
  refine ⟨h.1 0, ?_, ?_⟩
  · exact h.2.2.2 0 [.record goodRecord] [] (.record revokedRecord) (by decide)
  · refine h.2.2.1 [("rules.yaml", FileData.entries [.record goodRecord])] 0
      goodThreat ?_
    rw [show loadThreats
        (some [("rules.yaml", FileData.entries [.record goodRecord])]) 0 =
        [goodThreat] from rfl]
    exact List.mem_singleton.mpr rfl

end ThreatLoader

namespace TrustedDomains

/-- Claim C9, counterexample: with an upper-case stored trusted domain the
match fails even though the query is an exact case-insensitive match — the
stored side is compared verbatim, so matching is only case-insensitive in
the query. -/
theorem claim_C9_counterexample :
    isTrustedDomain "bun.sh" [{ domain := "BUN.SH", reason := "r" }] = false ∧
    toLower "bun.sh" = toLower "BUN.SH" := by
  constructor
  · rfl
  · rfl

/-- Claim C9 (amended): `isTrustedDomain` lowercases the query and returns
true exactly when the lowercased query equals a stored domain verbatim or
ends with "." followed by a stored domain (dot-boundary suffix match);
since the loader stores domains lowercased, this is a case-insensitive
match in the query.  `isTrustedDomain("cdn.bun.sh", [bun.sh])` is true and
`isTrustedDomain("notbun.sh", [bun.sh])` is false. -/
theorem claim_C9_trusted_domain_amended (domain : String)
    (trusted : List TrustedDomain) :
    (isTrustedDomain domain trusted = true ↔
      ∃ td ∈ trusted, toLower domain = td.domain ∨
        jsEndsWith (toLower domain) ("." ++ td.domain) = true) ∧
    isTrustedDomain "cdn.bun.sh" [{ domain := "bun.sh", reason := "x" }] = true ∧
    isTrustedDomain "notbun.sh" [{ domain := "bun.sh", reason := "x" }] = false ∧
    isTrustedDomain "CDN.BUN.SH" [{ domain := "bun.sh", reason := "x" }] = true := by
    refine ⟨?_, by decide, by decide, by decide⟩
    simp [isTrustedDomain, List.any_eq_true, Bool.or_eq_true]

end TrustedDomains

namespace Normalization

theorem charListLe_antisymm : ∀ x y : List Char,
    charListLe x y = true → charListLe y x = true → x = y := by
  intro x
  induction x with
  | nil =>
      intro y h1 h2
      cases y with
      | nil => rfl
      | cons c cs => exact absurd h2 (by simp [charListLe])
  | cons c cs ih =>
      intro y h1 h2
      cases y with
      | nil => exact absurd h1 (by simp [charListLe])
      | cons d ds =>
          simp only [charListLe] at h1 h2
          by_cases hcd : c < d
          · rw [if_neg (lt_asymm hcd), if_pos hcd] at h2
            exact Bool.noConfusion h2
          · by_cases hdc : d < c
            · rw [if_neg hcd, if_pos hdc] at h1
              exact Bool.noConfusion h1
            · have heq : c = d := le_antisymm (not_lt.mp hdc) (not_lt.mp hcd)
              subst heq
              rw [if_neg hcd, if_neg hdc] at h1 h2
              rw [ih ds h1 h2]

theorem sorted_perm_nodup_eq : ∀ (l1 l2 : List (String × String)),
    List.Perm l1 l2 → l1.Sorted nameLe → l2.Sorted nameLe →
    (l1.map Prod.fst).Nodup → l1 = l2 := by
  intro l1
  induction l1 with
  | nil =>
      intro l2 hp _ _ _
      exact (hp.symm.eq_nil).symm
  | cons x xs ih =>
      intro l2 hp hs1 hs2 hnd
      cases l2 with
      | nil => exact (List.cons_ne_nil x xs hp.eq_nil).elim
      | cons y ys =>
          have hxy : x = y := by
            have hx2 : x ∈ y :: ys := hp.mem_iff.mp (List.mem_cons_self _ _)
            rcases List.mem_cons.mp hx2 with h | hx3
            · exact h
            · have hy1 : y ∈ x :: xs := hp.symm.mem_iff.mp (List.mem_cons_self _ _)
              rcases List.mem_cons.mp hy1 with h | hy3
              · exact h.symm
              · have hle1 : nameLe y x := (List.sorted_cons.mp hs2).1 x hx3
                have hle2 : nameLe x y := (List.sorted_cons.mp hs1).1 y hy3
                have hnames : x.1 = y.1 :=
                  congrArg String.mk (charListLe_antisymm _ _ hle2 hle1)
                exfalso
                have hmem : x.1 ∈ xs.map Prod.fst := by
                  rw [hnames]
                  exact List.mem_map_of_mem _ hy3
                simp only [List.map_cons, List.nodup_cons] at hnd
                exact hnd.1 hmem
          subst hxy
          have hp2 : List.Perm xs ys := hp.cons_inv
          have hxs : xs = ys := by
            refine ih ys hp2 (List.sorted_cons.mp hs1).2 (List.sorted_cons.mp hs2).2 ?_
            simp only [List.map_cons, List.nodup_cons] at hnd
            exact hnd.2
          rw [hxs]

theorem sortParams_congr (q1 q2 : List (String × String))
    (hperm : List.Perm q1 q2) (hnd : (q1.map Prod.fst).Nodup) :
    sortParams q1 = sortParams q2 := by
  apply sorted_perm_nodup_eq
  · exact (List.perm_insertionSort _ q1).trans
      (hperm.trans (List.perm_insertionSort _ q2).symm)
  · exact List.sorted_insertionSort _ q1
  · exact List.sorted_insertionSort _ q2
  · exact (((List.perm_insertionSort nameLe q1).map Prod.fst).nodup_iff).mpr hnd

/-- Claim C8: normalizeUrl never throws — on parse failure it falls back to
a plain lowercase of the raw input; on success it serializes the parsed URL
with the fragment dropped and the query parameters stably sorted by name
(scheme and host were lowercased by URL parsing) — so any case- or
query-order variant of the same URL normalizes to the same string, e.g.
"HTTP://X.COM/p" and "http://x.com/p". -/
theorem claim_C8_normalize_url :
    (∀ raw, parseUrl raw = none → normalizeUrl raw = toLower raw) ∧
    (∀ raw u, parseUrl raw = some u →
      normalizeUrl raw =
        renderUrl { u with fragment := none, query := sortParams u.query } ∧
      List.Perm (sortParams u.query) u.query ∧
      (sortParams u.query).Sorted nameLe) ∧
    (∀ s1 s2 u1 u2, parseUrl s1 = some u1 → parseUrl s2 = some u2 →
      u1.scheme = u2.scheme → u1.host = u2.host → u1.port = u2.port →
      u1.path = u2.path → List.Perm u1.query u2.query →
      (u1.query.map Prod.fst).Nodup →
      normalizeUrl s1 = normalizeUrl s2) ∧
    normalizeUrl "HTTP://X.COM/p" = normalizeUrl "http://x.com/p" ∧
    normalizeUrl "http://x.com/p?b=2&a=1" = normalizeUrl "http://x.com/p?a=1&b=2" ∧
    normalizeUrl "http://x.com/p#frag" = normalizeUrl "http://x.com/p" := by
  refine ⟨?_, ?_, ?_, by decide, by decide, by decide⟩
  · intro raw h
    simp [normalizeUrl, h]
  · intro raw u h
    exact ⟨by simp [normalizeUrl, h], List.perm_insertionSort _ u.query,
      List.sorted_insertionSort _ u.query⟩
  · intro s1 s2 u1 u2 h1 h2 hs hh hp hpa hq hnd
    simp only [normalizeUrl, h1, h2]
    have hqq : sortParams u1.query = sortParams u2.query :=
      sortParams_congr _ _ hq hnd
    cases u1
    cases u2
    simp_all

theorem claim_C8_normalize_url_witness :
    normalizeUrl "HTTP://X.COM/a?b=2&a=1#f" = normalizeUrl "http://x.com/a?a=1&b=2" := by
  have h := claim_C8_normalize_url
  exact h.2.2.1 _ _ _ _ rfl rfl rfl rfl rfl rfl (by decide) (by decide)

end Normalization

theorem dedupFirstSeen_nodup (l : List String) : (dedupFirstSeen l).Nodup := by
  suffices h : ∀ (l acc : List String), acc.Nodup →
      (l.foldl (fun acc x => if x ∈ acc then acc else acc ++ [x]) acc).Nodup by
    exact h l [] List.nodup_nil
  intro l
  induction l with
  | nil => intro acc h; exact h
  | cons x xs ih =>
      intro acc h
      simp only [List.foldl_cons]
      by_cases hx : x ∈ acc
      · rw [if_pos hx]
        exact ih acc h
      · rw [if_neg hx]
        refine ih _ ?_
        simp [List.nodup_append, h, hx]

theorem mem_dedupFirstSeen (l : List String) (a : String) :
    a ∈ dedupFirstSeen l ↔ a ∈ l := by
  suffices h : ∀ (l acc : List String) (a : String),
      a ∈ l.foldl (fun acc x => if x ∈ acc then acc else acc ++ [x]) acc ↔
        a ∈ acc ∨ a ∈ l by
    simpa using h l [] a
  intro l
  induction l with
  | nil => intro acc a; simp
  | cons x xs ih =>
      intro acc a
      simp only [List.foldl_cons]
      by_cases hx : x ∈ acc
      · rw [if_pos hx, ih]
        simp only [List.mem_cons]
        constructor
        · rintro (h | h)
          · exact Or.inl h
          · exact Or.inr (Or.inr h)
        · rintro (h | rfl | h)
          · exact Or.inl h
          · exact Or.inl hx
          · exact Or.inr h
      · rw [if_neg hx, ih]
        simp only [List.mem_append, List.mem_singleton, List.mem_cons]
        tauto

theorem dedup_from_acc : ∀ (n : Nat) (xs acc : List String), xs.length ≤ n →
    xs.foldl (fun acc x => if x ∈ acc then acc else acc ++ [x]) acc =
      acc ++ (xs.filter (fun y => y ∉ acc)).foldl
        (fun acc x => if x ∈ acc then acc else acc ++ [x]) [] := by
  intro n
  induction n with
  | zero =>
      intro xs acc hlen
      rw [List.length_eq_zero.mp (Nat.le_zero.mp hlen)]
      simp
  | succ n ih =>
      intro xs acc hlen
      cases xs with
      | nil => simp
      | cons x rest =>
          have hr : rest.length ≤ n := by
            simpa using Nat.succ_le_succ_iff.mp (by simpa using hlen)
          simp only [List.foldl_cons, List.filter_cons]
          by_cases hx : x ∈ acc
          · rw [if_pos hx]
            have hd : (decide (x ∉ acc)) = false := by simp [hx]
            rw [hd, if_neg Bool.false_ne_true]
            exact ih rest acc hr
          · rw [if_neg hx]
            have hd : (decide (x ∉ acc)) = true := by simp [hx]
            rw [hd, if_pos rfl]
            rw [ih rest (acc ++ [x]) hr]
            have hstep : (x :: rest.filter (fun y => y ∉ acc)).foldl
                (fun acc x => if x ∈ acc then acc else acc ++ [x]) [] =
                (rest.filter (fun y => y ∉ acc)).foldl
                  (fun acc x => if x ∈ acc then acc else acc ++ [x]) [x] := by
              simp
            rw [hstep]
            have hlen2 : (rest.filter (fun y => y ∉ acc)).length ≤ n :=
              le_trans (List.length_filter_le _ _) hr
            rw [ih (rest.filter (fun y => y ∉ acc)) [x] hlen2]
            have hfil : (rest.filter (fun y => y ∉ acc)).filter
                (fun y => y ∉ [x]) = rest.filter (fun y => y ∉ acc ++ [x]) := by
              rw [List.filter_filter]
              apply List.filter_congr
              intro y _
              by_cases h1 : y ∈ acc <;> by_cases h2 : y = x <;> simp [h1, h2]
            rw [hfil, List.append_assoc]

theorem dedupFirstSeen_cons (x : String) (xs : List String) :
    dedupFirstSeen (x :: xs) =
      x :: dedupFirstSeen (xs.filter (fun y => y ≠ x)) := by
  have h1 : dedupFirstSeen (x :: xs) =
      xs.foldl (fun acc x => if x ∈ acc then acc else acc ++ [x]) [x] := by
    simp [dedupFirstSeen]
  rw [h1, dedup_from_acc xs.length xs [x] (le_refl _)]
  have hfil : xs.filter (fun y => y ∉ [x]) = xs.filter (fun y => y ≠ x) := by
    apply List.filter_congr
    intro y _
    simp
  rw [hfil]
  rfl

namespace Extractors

/-- Claim C7: the first artifact of a shell-command extraction is a command
artifact holding the heredoc-stripped command, while the url artifacts are
exactly the URLs extracted from the unstripped command; extracted URLs are
trailing-punctuation-trimmed matches, de-duplicated keeping the first
occurrence of each in first-seen order; on a heredoc-bearing command the
stripped command is recorded but the URL inside the heredoc body is still
found. -/
theorem claim_C7_artifact_extraction :
    (∀ command : String, (extractFromBash command).head? =
      some { type := "command", value := stripHeredocs command, context := none }) ∧
    (∀ command : String,
      (extractFromBash command).filterMap
        (fun a => if a.type = "url" then some a.value else none) =
      extractUrls command) ∧
    (∀ text : String, (extractUrls text).Nodup) ∧
    (∀ text u, u ∈ extractUrls text →
      ∃ m ∈ urlMatches text, u = trimTrailingPunct m) ∧
    (∀ (x : String) (xs : List String),
      dedupFirstSeen (x :: xs) =
        x :: dedupFirstSeen (xs.filter (fun y => y ≠ x))) ∧
    extractFromBash heredocExample =
      [{ type := "command", value := "git commit -F- <<EOF", context := none },
       { type := "url", value := "https://evil.com/x", context := none }] := by
  refine ⟨fun command => rfl, ?_, ?_, ?_, dedupFirstSeen_cons, by decide⟩
  · intro command
    have hurl : ∀ (cmd : String) (l : List String), List.filterMap
        ((fun a : Artifact => if a.type = "url" then some a.value else none) ∘
          fun url =>
            { type := "url", value := url,
              context := pipedToShellContext cmd url }) l = l := by
      intro cmd l
      induction l with
      | nil => rfl
      | cons a t ih => simp [List.filterMap_cons, ih]
    simp only [extractFromBash]
    split_ifs <;>
      simp [List.filterMap_append, List.filterMap_map, extractUrls, hurl]
  · intro text
    exact dedupFirstSeen_nodup _
  · intro text u hu
    have := (mem_dedupFirstSeen _ _).mp hu
    obtain ⟨m, hm, he⟩ := List.mem_map.mp this
    exact ⟨m, hm, he.symm⟩

theorem claim_C7_artifact_extraction_witness :
    ∃ m ∈ urlMatches "see https://evil.com/x.",
      "https://evil.com/x" = trimTrailingPunct m := by
  have h := claim_C7_artifact_extraction
  exact h.2.2.2.1 "see https://evil.com/x." "https://evil.com/x" (by decide)

end Extractors

namespace PackageExtract

theorem all_takeWhile_self (p : Char → Bool) (l : List Char) :
    (l.takeWhile p).all p = true :=
  List.all_eq_true.mpr fun _ hx => List.mem_takeWhile_imp hx

theorem startsWith_trans (n t x : String) (h1 : n.data <+: t.data)
    (h2 : jsStartsWith n x = true) : jsStartsWith t x = true := by
  simp only [jsStartsWith, List.isPrefixOf_iff_prefix] at h2 ⊢
  exact h2.trans h1

theorem startsWith_false_of (n t x : String) (h1 : n.data <+: t.data)
    (h2 : jsStartsWith t x = false) : jsStartsWith n x = false := by
  cases h : jsStartsWith n x with
  | false => rfl
  | true =>
      have h3 := startsWith_trans n t x h1 h
      rw [h2] at h3
      exact Bool.noConfusion h3

theorem splitNameVersion_fst_isPre (t : String) :
    ((splitNameVersion t).1).data <+: t.data := by
  simp only [splitNameVersion]
  split_ifs with h
  · cases hf : t.data.findIdx? (· = '/') with
    | none => simp [hf]
    | some a =>
        cases hg : (t.data.drop (a + 1)).findIdx? (· = '@') with
        | none => simp [hf, hg]
        | some i =>
            by_cases hi : 0 < i
            · simp only [hf, hg, if_pos hi]
              refine ⟨(t.data.drop (a + 1)).drop i, ?_⟩
              show (t.data.take (a + 1) ++ (t.data.drop (a + 1)).take i) ++
                  (t.data.drop (a + 1)).drop i = t.data
              rw [List.append_assoc, List.take_append_drop,
                List.take_append_drop]
            · simp [hf, hg, hi]
  · cases hg : t.data.findIdx? (· = '@') with
    | none => simp [hg]
    | some i =>
        by_cases hi : 0 < i
        · simp only [hg, if_pos hi]
          exact ⟨t.data.drop i, List.take_append_drop i t.data⟩
        · simp [hg, hi]

theorem isPackageName_no_bad (t : String) (h : isPackageName t = true) :
    jsStartsWith t "http://" = false ∧ jsStartsWith t "https://" = false ∧
    jsStartsWith t "git+" = false ∧ jsStartsWith t "./" = false ∧
    jsStartsWith t "../" = false ∧ jsStartsWith t "/" = false ∧
    jsStartsWith t "file:" = false := by
  simp only [isPackageName, Bool.and_eq_true, Bool.not_eq_true'] at h
  obtain ⟨⟨⟨⟨⟨⟨⟨⟨⟨-, -⟩, h3⟩, h4⟩, h5⟩, h6⟩, h7⟩, h8⟩, h9⟩, -⟩ := h
  exact ⟨h4, h3, h5, h6, h7, h8, h9⟩

theorem pipToken_name (t : String) (nv : String × Option String)
    (h : pipToken t = some nv) :
    nv.1.data ≠ [] ∧ nv.1.data.all isPipNameChar = true := by
  simp only [pipToken] at h
  by_cases h0 : t.data.takeWhile isPipNameChar = []
  · rw [if_pos h0] at h
    exact absurd h (by simp)
  · rw [if_neg h0] at h
    cases hv : pipVersion (t.data.dropWhile isPipNameChar) with
    | none => rw [hv] at h; exact absurd h (by simp)
    | some v =>
        rw [hv] at h
        have he : nv = (⟨t.data.takeWhile isPipNameChar⟩, v) :=
          (Option.some.inj h).symm
        rw [he]
        exact ⟨h0, all_takeWhile_self _ _⟩

theorem not_startsWith_of_all (n x : String) (c : Char) (hc : c ∈ x.data)
    (hnc : isPipNameChar c = false) (hall : n.data.all isPipNameChar = true) :
    jsStartsWith n x = false := by
  cases h : jsStartsWith n x with
  | false => rfl
  | true =>
      exfalso
      have hpre : x.data <+: n.data := by
        simpa [jsStartsWith, List.isPrefixOf_iff_prefix] using h
      obtain ⟨s2, hs⟩ := hpre
      have hcm : c ∈ n.data := by
        rw [← hs]; exact List.mem_append_left _ hc
      have h2 := List.all_eq_true.mp hall c hcm
      rw [hnc] at h2
      exact Bool.noConfusion h2

theorem npxLoop_origin : ∀ (ts : List String) (p : ParsedPackage),
    p ∈ npxLoop ts →
    ∃ t, isPackageName t = true ∧ p.name = (splitNameVersion t).1 := by
  intro ts
  induction ts with
  | nil => intro p hp; simp [npxLoop] at hp
  | cons t rest ih =>
      intro p hp
      simp only [npxLoop] at hp
      split_ifs at hp with h1 h2 h3
      · exact ih p hp
      · exact ih p hp
      · simp at hp
      · exact ⟨t, by simpa using h3, by rw [List.mem_singleton.mp hp]; rfl⟩

theorem npmLoop_origin : ∀ (ts : List String) (skip : Bool) (p : ParsedPackage),
    p ∈ npmLoop skip ts →
    ∃ t, isPackageName t = true ∧ p.name = (splitNameVersion t).1 := by
  intro ts
  induction ts with
  | nil => intro skip p hp; cases skip <;> simp [npmLoop] at hp
  | cons t rest ih =>
      intro skip p hp
      cases skip with
      | true => simp only [npmLoop] at hp; exact ih false p hp
      | false =>
          simp only [npmLoop] at hp
          split_ifs at hp with h1 h2 h3
          · exact ih true p hp
          · exact ih false p hp
          · simp at hp
          · rcases List.mem_cons.mp hp with he | hm
            · exact ⟨t, by simpa using h3, by rw [he]; rfl⟩
            · exact ih false p hm

theorem simpleLoop_origin : ∀ (ts : List String) (p : ParsedPackage),
    p ∈ simpleLoop ts →
    ∃ t, isPackageName t = true ∧ p.name = (splitNameVersion t).1 := by
  intro ts
  induction ts with
  | nil => intro p hp; simp [simpleLoop] at hp
  | cons t rest ih =>
      intro p hp
      simp only [simpleLoop] at hp
      split_ifs at hp with h1 h2
      · exact ih p hp
      · simp at hp
      · rcases List.mem_cons.mp hp with he | hm
        · exact ⟨t, by simpa using h2, by rw [he]; rfl⟩
        · exact ih p hm

theorem firstLoop_origin : ∀ (ts : List String) (p : ParsedPackage),
    p ∈ firstLoop ts →
    ∃ t, isPackageName t = true ∧ p.name = (splitNameVersion t).1 := by
  intro ts
  induction ts with
  | nil => intro p hp; simp [firstLoop] at hp
  | cons t rest ih =>
      intro p hp
      simp only [firstLoop] at hp
      split_ifs at hp with h1 h2
      · exact ih p hp
      · simp at hp
      · exact ⟨t, by simpa using h2, by rw [List.mem_singleton.mp hp]; rfl⟩

theorem pipLoop_origin : ∀ (ts : List String) (skip : Bool) (p : ParsedPackage),
    p ∈ pipLoop skip ts →
    p.name.data ≠ [] ∧ p.name.data.all isPipNameChar = true := by
  intro ts
  induction ts with
  | nil => intro skip p hp; cases skip <;> simp [pipLoop] at hp
  | cons t rest ih =>
      intro skip p hp
      cases skip with
      | true => simp only [pipLoop] at hp; exact ih false p hp
      | false =>
          simp only [pipLoop] at hp
          split_ifs at hp with h1 h2 h3
          · exact ih true p hp
          · exact ih false p hp
          · simp at hp
          · cases htok : pipToken t with
            | none => rw [htok] at hp; exact ih false p hp
            | some nv =>
                rw [htok] at hp
                rcases List.mem_cons.mp hp with he | hm
                · have hn := pipToken_name t nv htok
                  rw [he]
                  exact hn
                · exact ih false p hm

theorem extractNpm_origin (tokens : List String) (p : ParsedPackage)
    (hp : p ∈ extractNpmPackages tokens) :
    ∃ t, isPackageName t = true ∧ p.name = (splitNameVersion t).1 := by
  simp only [extractNpmPackages] at hp
  split_ifs at hp with h1 h2
  · exact npxLoop_origin _ p hp
  · exact npmLoop_origin _ false p hp
  · simp at hp

theorem extractYarn_origin (tokens : List String) (p : ParsedPackage)
    (hp : p ∈ extractYarnPackages tokens) :
    ∃ t, isPackageName t = true ∧ p.name = (splitNameVersion t).1 := by
  simp only [extractYarnPackages] at hp
  split_ifs at hp with h1
  · exact simpleLoop_origin _ p hp
  · simp at hp

theorem extractPnpmBun_origin (tokens : List String) (binary : String)
    (p : ParsedPackage) (hp : p ∈ extractPnpmBunPackages tokens binary) :
    ∃ t, isPackageName t = true ∧ p.name = (splitNameVersion t).1 := by
  simp only [extractPnpmBunPackages] at hp
  split_ifs at hp with h1 h2 h3
  · exact firstLoop_origin _ p hp
  · exact firstLoop_origin _ p hp
  · exact simpleLoop_origin _ p hp
  · simp at hp

theorem extractBun_origin (tokens : List String) (p : ParsedPackage)
    (hp : p ∈ extractBunPackages tokens) :
    ∃ t, isPackageName t = true ∧ p.name = (splitNameVersion t).1 := by
  simp only [extractBunPackages] at hp
  split_ifs at hp with h1
  · exact simpleLoop_origin _ p hp
  · simp at hp

theorem extractPip_origin (tokens : List String) (p : ParsedPackage)
    (hp : p ∈ extractPipPackages tokens) :
    p.name.data ≠ [] ∧ p.name.data.all isPipNameChar = true := by
  simp only [extractPipPackages] at hp
  split_ifs at hp with h1
  · exact pipLoop_origin _ false p hp
  · simp at hp

theorem extractFromTokens_origin (tokens : List String) (p : ParsedPackage)
    (hp : p ∈ extractFromTokens tokens) :
    (∃ t, isPackageName t = true ∧ p.name = (splitNameVersion t).1) ∨
    (p.name.data ≠ [] ∧ p.name.data.all isPipNameChar = true) := by
  cases tokens with
  | nil => simp [extractFromTokens] at hp
  | cons t0 rest =>
      simp only [extractFromTokens] at hp
      split_ifs at hp with h1 h2 h3 h4 h5 h6 h7
      · exact Or.inl (extractNpm_origin _ p hp)
      · exact Or.inl (extractYarn_origin _ p hp)
      · exact Or.inl (extractPnpmBun_origin _ _ p hp)
      · exact Or.inl (extractBun_origin _ p hp)
      · exact Or.inr (extractPip_origin _ p hp)
      · exact Or.inr (extractPip_origin _ p hp)
      · simp at hp
      · simp at hp

/-- C4 counterexample: the claim says a pip token's `[extras]` suffix is
stripped, which would make `pip install requests[security]==2.31.0` yield the
package `requests`; in fact the token fails the pip name/version regex (no
`[extras]` group in command extraction) and is skipped, yielding no package,
while the same token without extras does yield `requests`/`2.31.0`. -/
theorem claim_C4_counterexample :
    extractPackagesFromCommand "pip install requests[security]==2.31.0" = [] ∧
    extractPackagesFromCommand "pip install requests==2.31.0" =
      [requestsPkg] := by
  exact ⟨by decide, by decide⟩

/-- C4 (amended): `npm install express@4.18.0` extracts exactly
express/4.18.0/npm; `pip install requests==2.31.0 flask>=2.0` extracts
exactly the two PyPI packages with version specifiers split off; a pip token
carrying an `[extras]` suffix is skipped entirely (extras are handled only in
requirements.txt parsing), without stopping the scan of later tokens; and no
extracted package name ever starts with `http://`, `https://`, `git+`, `./`,
`../`, `/`, or `file:`. -/
theorem claim_C4_package_extraction_amended :
    extractPackagesFromCommand "npm install express@4.18.0" = [expressPkg] ∧
    extractPackagesFromCommand "pip install requests==2.31.0 flask>=2.0" =
      [requestsPkg, flaskPkg] ∧
    extractPackagesFromCommand
        "pip install requests[security]==2.31.0 flask>=2.0" = [flaskPkg] ∧
    ∀ (command : String) (p : ParsedPackage),
      p ∈ extractPackagesFromCommand command →
      jsStartsWith p.name "http://" = false ∧
      jsStartsWith p.name "https://" = false ∧
      jsStartsWith p.name "git+" = false ∧
      jsStartsWith p.name "./" = false ∧
      jsStartsWith p.name "../" = false ∧
      jsStartsWith p.name "/" = false ∧
      jsStartsWith p.name "file:" = false := by
  refine ⟨by decide, by decide, by decide, ?_⟩
  intro command p hp
  simp only [extractPackagesFromCommand] at hp
  rw [List.mem_flatten] at hp
  obtain ⟨l, hl, hpl⟩ := hp
  rw [List.mem_map] at hl
  obtain ⟨cmd, -, rfl⟩ := hl
  rcases extractFromTokens_origin _ p hpl with ⟨t, hpk, hname⟩ | ⟨-, hall⟩
  · have hbad := isPackageName_no_bad t hpk
    have hpre : (p.name).data <+: t.data := by
      rw [hname]; exact splitNameVersion_fst_isPre t
    exact ⟨startsWith_false_of _ _ _ hpre hbad.1,
           startsWith_false_of _ _ _ hpre hbad.2.1,
           startsWith_false_of _ _ _ hpre hbad.2.2.1,
           startsWith_false_of _ _ _ hpre hbad.2.2.2.1,
           startsWith_false_of _ _ _ hpre hbad.2.2.2.2.1,
           startsWith_false_of _ _ _ hpre hbad.2.2.2.2.2.1,
           startsWith_false_of _ _ _ hpre hbad.2.2.2.2.2.2⟩
  · exact ⟨not_startsWith_of_all p.name "http://" ':' (by decide) (by decide) hall,
           not_startsWith_of_all p.name "https://" ':' (by decide) (by decide) hall,
           not_startsWith_of_all p.name "git+" '+' (by decide) (by decide) hall,
           not_startsWith_of_all p.name "./" '/' (by decide) (by decide) hall,
           not_startsWith_of_all p.name "../" '/' (by decide) (by decide) hall,
           not_startsWith_of_all p.name "/" '/' (by decide) (by decide) hall,
           not_startsWith_of_all p.name "file:" ':' (by decide) (by decide) hall⟩

/-- Witness for C4: the universally quantified part applied to the concrete
npm example and its extracted package. -/
theorem claim_C4_package_extraction_amended_witness :
    jsStartsWith expressPkg.name "git+" = false :=
  (claim_C4_package_extraction_amended.2.2.2 "npm install express@4.18.0"
    expressPkg (by decide)).2.2.1

end PackageExtract

end Sage
